import Mathlib

/-!
Verification of the sl-tracing composition layer.

This file gives a shallow embedding, in Lean 4, of the parts of the
library that the specification talks about:

* the JSON-like runtime values that cross the public boundary
  (`JSVal`), together with the declarative option schemas
  (`Schema`, `FieldSchema`, `PropSchema`);
* the three-stage configuration pipeline
  (`expandShorthand`, `fillDefaults`, `validateConfig`, `prepareConfig`);
* the tracer-module shape validator (`validateTracerModule`);
* the recursive in-place freeze utility (`deepFreezeInPlace`, modelled on
  flag-carrying heap values `HValue`);
* the four wrapper protocols: the direct throwing wrapper
  (`traceWith` / `traceFn`), the throwing builder (`TracifyChain` state,
  setters and memoizing getters), the safe keyed wrapper
  (`executeTrace` / `embody`) and the safe builder
  (`embodifySet` / `embodifyTrace`).

Pure functions of the source are translated directly.  The behaviour of
the external JSON-schema engine (default injection, permissive coercion,
removal of undeclared properties) is modelled from the specification of
that boundary, since the engine itself is an external dependency; the
definitions concerned say so in their doc comments.  JavaScript
exceptions are modelled by the `Thrown` sum, promises by their settled
values, and the per-instance memo caches of the builder chains by
explicit cache fields threaded through the access functions.
-/

/-! ## Runtime values -/

mutual
/-- A JavaScript runtime value, as far as the library inspects one:
strings, numbers (modelled as integers, which covers every value the
configuration layer manipulates), booleans, `null`, `undefined`, opaque
function values, arrays and plain objects with ordered fields.  Arrays
and field lists are the mutual companions `JSList` and `JSFields` so
that equality stays decidable. -/
inductive JSVal where
  | str (s : String)
  | num (n : Int)
  | bool (b : Bool)
  | null
  | undef
  | fn
  | arr (elems : JSList)
  | obj (fields : JSFields)
  deriving Repr, DecidableEq
/-- A list of runtime values (array contents). -/
inductive JSList where
  | nil
  | cons (head : JSVal) (tail : JSList)
  deriving Repr, DecidableEq
/-- An ordered list of named fields of a plain object. -/
inductive JSFields where
  | nil
  | cons (key : String) (val : JSVal) (tail : JSFields)
  deriving Repr, DecidableEq
end

/-- The element list of a `JSList`. -/
def JSList.toList : JSList → List JSVal
  | .nil => []
  | .cons v rest => v :: rest.toList

/-- Builds a `JSList` from a plain list. -/
def JSList.ofList : List JSVal → JSList
  | [] => .nil
  | v :: rest => .cons v (JSList.ofList rest)

/-- The key/value list of a `JSFields`. -/
def JSFields.toList : JSFields → List (String × JSVal)
  | .nil => []
  | .cons k v rest => (k, v) :: rest.toList

/-- Builds a `JSFields` from a plain key/value list. -/
def JSFields.ofList : List (String × JSVal) → JSFields
  | [] => .nil
  | (k, v) :: rest => .cons k v (JSFields.ofList rest)

@[simp] theorem JSList.toList_ofList_eq (l : List JSVal) :
    (JSList.ofList l).toList = l := by
  induction l with
  | nil => rfl
  | cons v rest ih => simp [JSList.ofList, JSList.toList, ih]

@[simp] theorem JSFields.toList_ofList (l : List (String × JSVal)) :
    (JSFields.ofList l).toList = l := by
  induction l with
  | nil => rfl
  | cons kv rest ih => cases kv; simp [JSFields.ofList, JSFields.toList, ih]

theorem JSFields.ofList_injective {l1 l2 : List (String × JSVal)}
    (h : JSFields.ofList l1 = JSFields.ofList l2) : l1 = l2 := by
  have h2 := congrArg JSFields.toList h
  simpa using h2

/-- Convenience constructor: a plain object from a key/value list. -/
def jobj (l : List (String × JSVal)) : JSVal := .obj (JSFields.ofList l)

/-- Convenience constructor: an array from an element list. -/
def jarr (l : List JSVal) : JSVal := .arr (JSList.ofList l)

namespace JSVal

/-- The string produced by the JavaScript `typeof` operator. -/
def typeName : JSVal → String
  | .str _ => "string"
  | .num _ => "number"
  | .bool _ => "boolean"
  | .null => "object"
  | .undef => "undefined"
  | .fn => "function"
  | .arr _ => "object"
  | .obj _ => "object"

/-- Whether the value is a plain object (not `null`, not an array). -/
def isRecord : JSVal → Bool
  | .obj _ => true
  | _ => false

/-- Whether `typeof v` is the string `object` (objects, arrays, `null`). -/
def typeofObject : JSVal → Bool
  | .obj _ => true
  | .arr _ => true
  | .null => true
  | _ => false

/-- Whether the value is a string. -/
def isStr : JSVal → Bool
  | .str _ => true
  | _ => false

end JSVal

/-- First value stored under key `k` in an ordered key/value list
(JavaScript property lookup on our ordered-field model of objects,
also used for schema property tables). -/
def lk {α : Type} (k : String) : List (String × α) → Option α
  | [] => none
  | (k2, v) :: rest => if k2 = k then some v else lk k rest

/-- Property access `o[k]`: `undefined` when the key is missing or the
value is not an object. -/
def getField (v : JSVal) (k : String) : JSVal :=
  match v with
  | .obj fields => (lk k fields.toList).getD .undef
  | _ => (.undef)

/-- The JavaScript nullish coalescing `v ?? dflt`. -/
def nullish (v : JSVal) (dflt : JSVal) : JSVal :=
  match v with
  | .null => dflt
  | .undef => dflt
  | w => w

/-- `Object.entries(v)` for the values the shorthand expander can reach:
object fields in order, array elements keyed by their index, nothing for
primitives. -/
def toEntries : JSVal → Option (List (String × JSVal))
  | .obj fields => some fields.toList
  | .arr elems =>
      some (((List.range elems.toList.length).zip elems.toList).map
        fun p => (toString p.1, p.2))
  | _ => none

/-! ## Declarative schemas

A small model of the JSON-Schema fragment the library's option schemas
use: typed fields with optional defaults, enums, and (for object-typed
fields) one nested level of typed boolean/scalar properties with their
own defaults.  This is the shape of the meta schema and of the tracer
option schemas in the repository. -/

/-- A JSON-Schema primitive type tag. -/
inductive JType where
  | tstr
  | tnum
  | tint
  | tbool
  | tobj
  | tarr
  deriving Repr, DecidableEq

/-- Whether a runtime value matches a schema type tag. -/
def typeMatches (t : JType) : JSVal → Bool
  | .str _ => t = .tstr
  | .num _ => t = .tnum || t = .tint
  | .bool _ => t = .tbool
  | .arr _ => t = .tarr
  | .obj _ => t = .tobj
  | _ => false

/-- The schema of one nested property of an object-typed field
(`schema.properties[k].properties[k2]` in the source). -/
structure PropSchema where
  ptype : Option JType
  pdefault : Option JSVal
  deriving Repr, DecidableEq

/-- The schema of one top-level field (`schema.properties[k]`). -/
structure FieldSchema where
  ftype : Option JType
  fdefault : Option JSVal
  fenum : Option (List JSVal)
  fprops : Option (List (String × PropSchema))
  deriving Repr, DecidableEq

/-- A declarative option schema: declared top-level properties, required
field names, and whether additional properties are allowed. -/
structure Schema where
  props : List (String × FieldSchema)
  required : List String
  addProps : Bool
  deriving Repr, DecidableEq

/-! ## Error taxonomy

The closed error taxonomy, by kind.  `Thrown` models an arbitrary
JavaScript thrown value as the wrappers classify one: an `EmbodyError`
instance, some other `Error` instance (carrying its message), or a
non-`Error` value (carrying its `String(...)` rendering). -/

/-- The closed `EmbodyError` hierarchy, by kind.  `internal` carries the
message and, when the wrapping site passed one, the wrapped cause
(modelled by the cause's message). -/
inductive EmbodyErr where
  | tracerInvalid (violations : List String)
  | argumentInvalid (field : String) (message : String)
  | optionsInvalid (message : String)
  | optionsSemanticInvalid (message : String)
  | parseFailure (message : String)
  | limitExceeded (message : String)
  | internal (message : String) (cause : Option String)
  deriving Repr, DecidableEq

/-- An arbitrary thrown JavaScript value, as the catch blocks classify
one. -/
inductive Thrown where
  | embodyError (e : EmbodyErr)
  | otherError (message : String)
  | nonError (stringified : String)
  deriving Repr, DecidableEq

instance instDecidableEqExcept {e a : Type} [DecidableEq e] [DecidableEq a] :
    DecidableEq (Except e a) := fun x y =>
  match x, y with
  | .ok v, .ok w =>
      if h : v = w then .isTrue (by rw [h])
      else .isFalse (by intro hh; cases hh; exact h rfl)
  | .error v, .error w =>
      if h : v = w then .isTrue (by rw [h])
      else .isFalse (by intro hh; cases hh; exact h rfl)
  | .ok _, .error _ => .isFalse (by intro hh; cases hh)
  | .error _, .ok _ => .isFalse (by intro hh; cases hh)

/-! ## Stage 1: shorthand expansion (translated from
`src/configuring/expand-shorthand.ts`) -/

/-- Whether a field schema supports boolean shorthand: it describes an
object and every declared property of it is boolean.  A present-but-empty
property table counts (`Object.values({}).every(...)` is true).
Translated from `shouldExpand`. -/
def shouldExpand : Option FieldSchema → Bool
  | none => false
  | some fs =>
      fs.ftype = some .tobj &&
        match fs.fprops with
        | none => false
        | some ps => ps.all fun p => p.2.ptype = some .tbool

/-- Expands a boolean to an object with every declared property set to
that boolean.  Translated from `expandBoolean`. -/
def expandBoolean (b : Bool) (fs : FieldSchema) : JSVal :=
  jobj (((fs.fprops.getD []).map fun p => (p.1, JSVal.bool b)))

/-- One entry of the expansion map: a boolean at a shorthand-capable
field becomes the expanded object, everything else is untouched. -/
def expandEntry (sch : Schema) (kv : String × JSVal) : String × JSVal :=
  match kv.2 with
  | .bool b =>
      if shouldExpand (lk kv.1 sch.props) then
        (kv.1, expandBoolean b ((lk kv.1 sch.props).getD ⟨none, none, none, none⟩))
      else kv
  | _ => kv

/-- Expands boolean shorthand in options to the full object structure.
Translated from `expandShorthand`: null/undefined become an empty
record, non-objects pass through, and each entry is mapped by
`expandEntry`. -/
def expandShorthand (options : JSVal) (sch : Schema) : JSVal :=
  if options = .null ∨ options = .undef then jobj []
  else
    match toEntries options with
    | none => options
    | some entries => jobj (entries.map (expandEntry sch))

/-! ## Stage 2: default injection (`src/configuring/fill-defaults.ts`)

The wrapper in the source delegates to the external JSON-schema engine
configured with default injection, permissive coercion, removal of
undeclared properties and full error collection.  The engine is an
external dependency, so its behaviour here is modelled from the
specification of that boundary. -/

/-- Reads a run of decimal digits as a number, failing at the first
non-digit. -/
def digitsToNatGo : List Char → Nat → Option Nat
  | [], acc => some acc
  | c :: rest, acc =>
      if c.isDigit then digitsToNatGo rest (acc * 10 + (c.toNat - 48)) else none

/-- The numeric value of a numeric-looking (all decimal digits,
non-empty) string, `none` otherwise. -/
def numericStringToNat (s : String) : Option Nat :=
  match s.data with
  | [] => none
  | l => digitsToNatGo l 0

/-- Modelled from the spec: the engine's permissive type coercion - a
value already matching the declared type is untouched; a numeric-looking
string is coerced to a number where the schema wants one; the strings
`true`/`false` are coerced where the schema wants a boolean; everything
else is left unchanged (structural validation flags it later). -/
def coerceVal (t : Option JType) (v : JSVal) : JSVal :=
  match t with
  | none => v
  | some t =>
      if typeMatches t v then v
      else
        match t, v with
        | .tnum, .str s => (numericStringToNat s).elim v fun n => JSVal.num n
        | .tint, .str s => (numericStringToNat s).elim v fun n => JSVal.num n
        | .tbool, .str s =>
            if s = "true" then .bool true
            else if s = "false" then .bool false
            else v
        | _, _ => v

/-- The declared-entry part of the fill pass: entries with an
undeclared key are silently dropped, entries with a declared key are
processed (`proc`). -/
def genProc {α : Type} (props : List (String × α)) (proc : α → JSVal → JSVal)
    (entries : List (String × JSVal)) : List (String × JSVal) :=
  (entries.filter fun kv => (lk kv.1 props).isSome).map fun kv =>
    match lk kv.1 props with
    | some a => (kv.1, proc a kv.2)
    | none => kv

/-- The injected part of the fill pass: declared defaults absent from
the data, processed. -/
def genInject {α : Type} (props : List (String × α)) (dflt : α → Option JSVal)
    (proc : α → JSVal → JSVal) (entries : List (String × JSVal)) :
    List (String × JSVal) :=
  props.filterMap fun ka =>
    if (lk ka.1 entries).isSome then none
    else (dflt ka.2).map fun d => (ka.1, proc ka.2 d)

/-- Modelled from the spec: the shared fill pass of the schema engine
over one object level - entries with an undeclared key are silently
dropped, entries with a declared key are processed, and every declared
default absent from the data is appended, itself processed (the engine
validates a just-injected default like any other value).  `props` is
the declared property table, `dflt` reads the declared default, `proc`
is the per-value processing (coercion, or nested filling). -/
def genFill {α : Type} (props : List (String × α)) (dflt : α → Option JSVal)
    (proc : α → JSVal → JSVal) (entries : List (String × JSVal)) :
    List (String × JSVal) :=
  genProc props proc entries ++ genInject props dflt proc entries

/-- Modelled from the spec: default injection and coercion inside one
object-typed field - nested declared properties are coerced, nested
undeclared properties are dropped, and nested declared defaults absent
from the data are appended (coerced).  Scalar fields and non-object
values are simply coerced. -/
def fillField (fs : FieldSchema) (v : JSVal) : JSVal :=
  match fs.ftype, fs.fprops with
  | some .tobj, some ps =>
      match v with
      | .obj nf =>
          jobj (genFill ps (fun p => p.pdefault)
            (fun p w => coerceVal p.ptype w) nf.toList)
      | w => coerceVal fs.ftype w
  | _, _ => coerceVal fs.ftype v

/-- Modelled from the spec: the `fillDefaults` stage (the schema engine
run with `useDefaults`, `coerceTypes` and `removeAdditional`).  Null and
undefined start as an empty record; for a record, undeclared fields are
silently dropped, declared fields are coerced and nested-filled, and
every declared default absent from the data is injected (the injected
default itself nested-filled, as the engine does when it descends into a
just-injected value).  Non-record data passes through for validation to
reject. -/
def fillDefaults (options : JSVal) (sch : Schema) : JSVal :=
  let v := if options = .null ∨ options = .undef then jobj [] else options
  match v with
  | .obj fields =>
      jobj (genFill sch.props (fun fs => fs.fdefault) fillField fields.toList)
  | w => w

/-! ## Stage 3: structural validation (translated from
`src/configuring/validate-config.ts`; the per-keyword checks are the
modelled schema-engine run without coercion, collecting every
violation). -/

/-- The violations of one nested entry of an object-typed field. -/
def nestedEntryViolations (ps : List (String × PropSchema)) (kv : String × JSVal) :
    List String :=
  match lk kv.1 ps with
  | some p =>
      match p.ptype with
      | some t => if typeMatches t kv.2 then [] else [kv.1 ++ " has wrong type"]
      | none => []
  | none => []

/-- The violations of one top-level entry: type check, enum check
(naming the allowed values), and nested property checks for object
fields; an undeclared entry is a violation exactly when the schema
forbids additional properties. -/
def entryViolations (sch : Schema) (kv : String × JSVal) : List String :=
  match lk kv.1 sch.props with
  | none =>
      if sch.addProps then [] else [kv.1 ++ " is not an allowed property"]
  | some fs =>
      (match fs.ftype with
        | some t => if typeMatches t kv.2 then [] else [kv.1 ++ " has wrong type"]
        | none => []) ++
      (match fs.fenum with
        | some es =>
            if es.contains kv.2 then []
            else [kv.1 ++ " must be one of the allowed values"]
        | none => []) ++
      (match fs.ftype, fs.fprops, kv.2 with
        | some .tobj, some ps, .obj nf =>
            nf.toList.flatMap (nestedEntryViolations ps)
        | _, _, _ => [])

/-- Every structural violation of the data against the schema, in
order: a non-record is a single violation; otherwise every entry is
checked and every missing required field is reported.  All violations
are collected, never just the first. -/
def configViolations (d : JSVal) (sch : Schema) : List String :=
  match d with
  | .obj fields =>
      fields.toList.flatMap (entryViolations sch) ++
        sch.required.filterMap fun r =>
          if (lk r fields.toList).isSome then none
          else some ("required property " ++ r ++ " is missing")
  | _ => ["config must be an object"]

/-- The check-and-raise step of validation: success returns the input
unchanged, failure raises one configuration-schema error carrying every
violation joined into its message. -/
def validateReplaced (input : JSVal) (sch : Schema) : Except EmbodyErr JSVal :=
  match configViolations input sch with
  | [] => .ok input
  | vs => .error (.optionsInvalid (String.intercalate "; " vs))

/-- Validates data against the schema: null/undefined count as an empty
record, the rest is `validateReplaced`.  Translated from
`validateConfig`. -/
def validateConfig (d : JSVal) (sch : Schema) : Except EmbodyErr JSVal :=
  validateReplaced (if d = .null ∨ d = .undef then jobj [] else d) sch

/-- The fixed three-stage pipeline: expand, then fill, then validate.
Translated from `prepare-config.ts`. -/
def prepareConfig (d : JSVal) (sch : Schema) : Except EmbodyErr JSVal :=
  validateConfig (fillDefaults (expandShorthand d sch) sch) sch

/-! ## Capability validator (translated from
`src/api/validate-tracer-module.ts`) -/

/-- Property read used by the validator: a missing key is `undefined`. -/
def tmField (fields : List (String × JSVal)) (k : String) : JSVal :=
  (lk k fields).getD (.undef)

/-- Whether the string trims to empty (`s.trim() === \'\'` in the
source): it consists of whitespace only. -/
def isBlankString (s : String) : Bool := s.data.all fun c => c.isWhitespace

/-- The identity check: `id` must be a non-trim-empty string. -/
def idViolations (fields : List (String × JSVal)) : List String :=
  match tmField fields "id" with
  | .str s => if isBlankString s then ["id must be a non-empty string"] else []
  | _ => ["id must be a non-empty string"]

/-- The domains check: `langs` must be an array of strings. -/
def langsViolations (fields : List (String × JSVal)) : List String :=
  match tmField fields "langs" with
  | .arr xs =>
      if xs.toList.all JSVal.isStr then []
      else ["langs must be an array of strings (use [] for universal tracers)"]
  | _ => ["langs must be an array of strings (use [] for universal tracers)"]

/-- The execute check: `record` must be a function. -/
def recordViolations (fields : List (String × JSVal)) : List String :=
  match tmField fields "record" with
  | .fn => []
  | _ => ["record must be a function"]

/-- The optional schema check: `optionsSchema`, when present, must be a
plain object. -/
def schemaViolations (fields : List (String × JSVal)) : List String :=
  match tmField fields "optionsSchema" with
  | .undef => []
  | .obj _ => []
  | _ => ["optionsSchema must be a plain object if provided"]

/-- The optional semantic-validator check: `verifyOptions`, when
present, must be a function. -/
def verifyViolations (fields : List (String × JSVal)) : List String :=
  match tmField fields "verifyOptions" with
  | .undef => []
  | .fn => []
  | _ => ["verifyOptions must be a function if provided"]

/-- The full ordered violation list of the five structural checks, all
of which run unconditionally. -/
def tracerViolations (fs : List (String × JSVal)) : List String :=
  idViolations fs ++ langsViolations fs ++ recordViolations fs ++
    schemaViolations fs ++ verifyViolations fs

/-- Asserts the tracer-module contract on an arbitrary runtime value.
A non-record fails at once with a single violation; a record runs every
structural check unconditionally, collecting all violations, and throws
one aggregate error when any check failed.  Translated from
`validateTracerModule`. -/
def validateTracerModule (t : JSVal) : Except EmbodyErr Unit :=
  match t with
  | .obj fields =>
      if tracerViolations fields.toList = [] then .ok ()
      else .error (.tracerInvalid (tracerViolations fields.toList))
  | _ => .error (.tracerInvalid ["tracerModule must be a plain object"])

/-! ## In-place deep freeze (translated from
`src/utils/deep-freeze-in-place.ts`)

Heap values carry an explicit frozen flag on every object/array node
(`Object.isFrozen`); primitives, `null` and functions carry none.  The
tree shape realizes the acyclic object graphs of the claim; in-place
mutation is modelled by returning a value of identical shape, so
reference identity of the source corresponds to erasure-equality
here. -/

mutual
/-- A heap value as the freeze utility sees one: a primitive (number,
string, boolean, `null`, `undefined`, function) or an object/array node
with a frozen flag and its own enumerable properties. -/
inductive HValue where
  | prim
  | node (frozen : Bool) (fields : HFields)
  deriving Repr, DecidableEq
/-- The own enumerable properties of a heap node. -/
inductive HFields where
  | nil
  | cons (key : String) (val : HValue) (tail : HFields)
  deriving Repr, DecidableEq
end

mutual
/-- Freezes the value and all nested objects/arrays in place: a
primitive is returned as-is, an object node is marked frozen and every
own enumerable property value that is itself an object is recursively
frozen.  Translated from `deepFreezeInPlace`. -/
def deepFreezeInPlace : HValue → HValue
  | .prim => .prim
  | .node _ fields => .node true (deepFreezeFields fields)
/-- Recursion of `deepFreezeInPlace` over own enumerable properties. -/
def deepFreezeFields : HFields → HFields
  | .nil => .nil
  | .cons k v rest => .cons k (deepFreezeInPlace v) (deepFreezeFields rest)
end

mutual
/-- Every object/array node reachable from the value through own
enumerable properties is frozen. -/
def allFrozen : HValue → Bool
  | .prim => true
  | .node frozen fields => frozen && allFrozenFields fields
/-- `allFrozen` over a property list. -/
def allFrozenFields : HFields → Bool
  | .nil => true
  | .cons _ v rest => allFrozen v && allFrozenFields rest
end

mutual
/-- Erases the frozen flags, leaving the pure object shape.  Two values
equal after erasure occupy the same heap shape - this is how "returns
the identical reference, objects unchanged in identity" reads on the
tree model of the heap. -/
def eraseFrozen : HValue → HValue
  | .prim => .prim
  | .node _ fields => .node false (eraseFrozenFields fields)
/-- `eraseFrozen` over a property list. -/
def eraseFrozenFields : HFields → HFields
  | .nil => .nil
  | .cons k v rest => .cons k (eraseFrozen v) (eraseFrozenFields rest)
end

/-- The thrown value of a failed computation, `none` for a successful
one (used to state theorems about computations whose success value
carries functions and so has no decidable equality). -/
def thrownOf {α : Type} : Except Thrown α → Option Thrown
  | .error t => some t
  | .ok _ => none

/-! ## Wrapper-level runtime model

The wrappers manipulate a validated-or-not tracer module, resolved
configurations and step sequences.  A `TracerRt` is a value sitting in a
`TracerModule`-typed position: its behavioural fields are Lean
functions, and `shapeViolations` is the violation list that
`validateTracerModule` reports for its runtime shape (empty for a
conforming module) - the wrappers' calls to the validator observe
exactly that list.  Deferred computations (`record`) are modelled by
their settled outcome: `Except.error` is a rejected promise. -/

/-- A step sequence as returned across the boundary, together with
whether it was (clone-)frozen before being handed out. -/
structure Steps where
  items : List JSVal
  frozen : Bool
  deriving Repr, DecidableEq

/-- A resolved configuration `\x7b meta, options \x7d`, together with
whether it was frozen in place on creation. -/
structure ResolvedConfig where
  meta : JSVal
  options : JSVal
  frozen : Bool
  deriving Repr, DecidableEq

/-- A runtime tracer module (see the section comment). -/
structure TracerRt where
  id : String
  langs : List String
  optionsSchema : Option Schema
  verifyOptions : Option (JSVal → Except Thrown Unit)
  record : String → ResolvedConfig → Except Thrown (List JSVal)
  shapeViolations : List String

/-- The not-owned-object freeze (`deepFreeze`): clone, then freeze the
clone.  On the tree model of configuration values the clone is an equal
tree, so the operation is the identity; frozen-ness of configurations is
not tracked (the freeze claims are settled on `HValue` and on the
result-wrapper flags). -/
def deepFreezeVal (v : JSVal) : JSVal := v

/-- Resolves the two-part configuration: the `meta` part against the
(cross-tracer) meta schema, the `options` part against the tracer's own
schema when it has one.  Shared verbatim by all four wrappers. -/
def computeResolvedConfig (ms : Schema) (tr : TracerRt) (config : Option JSVal) :
    Except EmbodyErr ResolvedConfig := do
  let userConfig := nullish (config.getD .undef) (jobj [])
  let meta ← prepareConfig (nullish (getField userConfig "meta") (jobj [])) ms
  let options ←
    match tr.optionsSchema with
    | some os => prepareConfig (nullish (getField userConfig "options") (jobj [])) os
    | none => pure (jobj [])
  pure { meta := meta, options := options, frozen := true }

/-- The tracer's optional semantic validator, invoked on the resolved
options; absent means no check. -/
def runVerifyOptions (tr : TracerRt) (rc : ResolvedConfig) : Except Thrown Unit :=
  match tr.verifyOptions with
  | some f => f rc.options
  | none => .ok ()

/-! ## Direct wrapper (translated from `src/api/trace.ts`) -/

/-- Validates the remaining arguments, prepares the config, runs the
semantic validator, then delegates to the tracer's `record`, cloning and
freezing its output.  Translated from `traceWith`. -/
def traceWith (ms : Schema) (tr : TracerRt) (code : JSVal) (config : Option JSVal) :
    Except Thrown Steps :=
  match code with
  | .str s => do
      match config with
      | some v =>
          if v.typeofObject then pure ()
          else throw (.embodyError (.argumentInvalid "config"
            ("trace: expected config to be an object, got " ++ v.typeName)))
      | none => pure ()
      let rc ← (computeResolvedConfig ms tr config).mapError Thrown.embodyError
      runVerifyOptions tr rc
      let items ← tr.record s rc
      pure { items := items, frozen := true }
  | _ =>
      .error (.embodyError (.argumentInvalid "code"
        ("trace: expected code to be a string, got " ++ code.typeName)))

/-- The `trace` entry point: validates the tracer at every entry, then
either returns the curried partial application (when `code` is omitted,
modelled by `Sum.inr`) or delegates to `traceWith`.  Translated from
`trace`. -/
def traceFn (ms : Schema) (tr : TracerRt) (code : Option JSVal) (config : Option JSVal) :
    Except Thrown (Sum Steps Unit) :=
  if tr.shapeViolations = [] then
    match code with
    | none => .ok (.inr ())
    | some c => (traceWith ms tr c config).map Sum.inl
  else .error (.embodyError (.tracerInvalid tr.shapeViolations))

/-! ## Builder-throws wrapper (translated from `src/api/tracify.ts`)

A chain is its immutable input state plus the two per-instance memo
caches (the `let` variables of the source closure).  Every setter builds
a brand-new chain, so both caches of the returned chain are empty; the
getters return the possibly cache-updated chain alongside their result,
together with counters saying how many times the underlying resolution
and `record` computations ran during the access. -/

/-- The immutable input state of a tracify chain. -/
structure TracifyState where
  tracer : Option TracerRt
  code : Option String
  config : Option JSVal

/-- A tracify chain instance: state plus per-instance caches.  The
cached steps value is the memoized promise, by its settled outcome. -/
structure TracifyChain where
  state : TracifyState
  cachedResolvedConfig : Option ResolvedConfig
  cachedSteps : Option (Except Thrown Steps)

/-- The pre-instantiated empty chain (`tracifyChain({})`). -/
def tracifyEmptyChain : TracifyChain := ⟨⟨none, none, none⟩, none, none⟩

/-- The `.tracer()` setter: validates the module, always drops the
stored config, and keeps the stored code only when the new module shares
the old one's identity or their language sets are compatible (either
empty, or intersecting).  Translated from `tracifyChain.tracer`. -/
def tracifyTracerSet (c : TracifyChain) (t : TracerRt) : Except Thrown TracifyChain :=
  if t.shapeViolations = [] then
    let oldLangsCount := (c.state.tracer.map fun o => o.langs.length).getD 0
    let langsCompatible :=
      (t.langs.length == 0) || (oldLangsCount == 0) ||
        t.langs.any fun l => (c.state.tracer.map fun o => o.langs.contains l).getD false
    let keepCode :=
      (match c.state.tracer with
        | some o => t.id == o.id
        | none => false) || langsCompatible
    .ok ⟨⟨some t, if keepCode then c.state.code else none, none⟩, none, none⟩
  else .error (.embodyError (.tracerInvalid t.shapeViolations))

/-- The `.code()` setter: rejects non-strings and the empty string,
otherwise returns a new chain with the code replaced.  Translated from
`tracifyChain.code`. -/
def tracifyCodeSet (c : TracifyChain) (v : JSVal) : Except Thrown TracifyChain :=
  match v with
  | .str s =>
      if s = "" then
        .error (.embodyError (.argumentInvalid "code"
          "tracify.code(): expected a non-empty string"))
      else .ok ⟨{ c.state with code := some s }, none, none⟩
  | _ =>
      .error (.embodyError (.argumentInvalid "code"
        ("tracify.code(): expected a string, got " ++ v.typeName)))

/-- The `.config()` setter: rejects values that are not objects (null
becomes the empty record), clones and freezes the accepted config, and
returns a new chain.  Translated from `tracifyChain.config`. -/
def tracifyConfigSet (c : TracifyChain) (v : JSVal) : Except Thrown TracifyChain :=
  if v.typeofObject then
    .ok ⟨{ c.state with config := some (deepFreezeVal (nullish v (jobj []))) }, none, none⟩
  else
    .error (.embodyError (.argumentInvalid "config"
      ("tracify.config(): expected an object, got " ++ v.typeName)))

/-- The outcome of one `.resolvedConfig` getter access: the (possibly
cache-updated) chain, the result or thrown error, and how many times the
underlying resolution ran. -/
structure RCAccess where
  chain : TracifyChain
  out : Except Thrown ResolvedConfig
  resolutions : Nat

/-- The `.resolvedConfig` getter: returns the cached frozen value when
present; otherwise requires a tracer, resolves, caches, runs the
semantic validator and returns.  Translated from the
`tracifyChain.resolvedConfig` getter (note the source caches before the
semantic validator runs, so a semantic failure leaves the cache
populated). -/
def tracifyResolvedConfigGet (ms : Schema) (c : TracifyChain) : RCAccess :=
  match c.cachedResolvedConfig with
  | some rc => ⟨c, .ok rc, 0⟩
  | none =>
      match c.state.tracer with
      | none =>
          ⟨c, .error (.embodyError (.argumentInvalid "tracer"
            "tracify: tracer is required to access the resolved config")), 0⟩
      | some tr =>
          match computeResolvedConfig ms tr c.state.config with
          | .error e => ⟨c, .error (.embodyError e), 1⟩
          | .ok rc =>
              let c1 := { c with cachedResolvedConfig := some rc }
              match runVerifyOptions tr rc with
              | .error t => ⟨c1, .error t, 1⟩
              | .ok _ => ⟨c1, .ok rc, 1⟩

/-- The outcome of one `.steps` getter access: the (possibly
cache-updated) chain, the synchronous result (the memoized promise, or
the synchronously thrown error), and how many times resolution and
`record` ran. -/
structure StepsAccess where
  chain : TracifyChain
  out : Except Thrown (Except Thrown Steps)
  resolutions : Nat
  recordCalls : Nat

/-- The `.steps` getter: returns the cached promise when present;
otherwise requires tracer and code, resolves the config unless cached,
runs the semantic validator, invokes `record` once and caches the
resulting promise (even a rejected one).  Translated from the
`tracifyChain.steps` getter. -/
def tracifyStepsGet (ms : Schema) (c : TracifyChain) : StepsAccess :=
  match c.cachedSteps with
  | some p => ⟨c, .ok p, 0, 0⟩
  | none =>
      match c.state.tracer with
      | none =>
          ⟨c, .error (.embodyError (.argumentInvalid "tracer"
            "tracify: a tracer is required to generate trace steps")), 0, 0⟩
      | some tr =>
          match c.state.code with
          | none =>
              ⟨c, .error (.embodyError (.argumentInvalid "code"
                "tracify: code is required to generate trace steps")), 0, 0⟩
          | some code =>
              let rcStep : Except Thrown ResolvedConfig × TracifyChain × Nat :=
                match c.cachedResolvedConfig with
                | some rc => (.ok rc, c, 0)
                | none =>
                    match computeResolvedConfig ms tr c.state.config with
                    | .error e => (.error (.embodyError e), c, 1)
                    | .ok rc => (.ok rc, { c with cachedResolvedConfig := some rc }, 1)
              match rcStep with
              | (.error t, c1, n) => ⟨c1, .error t, n, 0⟩
              | (.ok rc, c1, n) =>
                  match runVerifyOptions tr rc with
                  | .error t => ⟨c1, .error t, n, 0⟩
                  | .ok _ =>
                      let p := (tr.record code rc).map fun items =>
                        Steps.mk items true
                      ⟨{ c1 with cachedSteps := some p }, .ok p, n, 1⟩

/-! ## Safe keyed wrapper (translated from `src/api/embody.ts`) -/

/-- The outcome object the safe keyed wrapper returns: the tag, the
step sequence and resolved config on success, the classified error on
failure, the echoed inputs, and whether the outcome object itself was
frozen in place before being returned (the source wraps only the
success branch in `deepFreezeInPlace`; the catch branch returns a plain
object literal). -/
structure EmbodyResult where
  ok : Bool
  steps : Option Steps
  resolvedConfig : Option ResolvedConfig
  error : Option Thrown
  code : String
  config : Option JSVal
  resultFrozen : Bool
  deriving Repr, DecidableEq

/-- The body of `executeTrace` (the `try` block): validate the tracer
shape, prepare the two-part config, freeze it in place, run the
semantic validator, then run `record` and clone-freeze its output. -/
def executeTraceBody (ms : Schema) (tr : TracerRt) (code : String)
    (config : Option JSVal) : Except Thrown (Steps × ResolvedConfig) := do
  if tr.shapeViolations = [] then pure ()
  else throw (.embodyError (.tracerInvalid tr.shapeViolations))
  let rc ← (computeResolvedConfig ms tr config).mapError Thrown.embodyError
  runVerifyOptions tr rc
  let items ← tr.record code rc
  pure ({ items := items, frozen := true }, rc)

/-- Executes a trace with prepared state; every failure - including a
tracer-contract violation - is caught and returned as an
`ok: false` outcome.  A caught `EmbodyError` passes through; a caught
other `Error` is wrapped as an internal failure carrying the original
as cause; any other thrown value is wrapped with its string rendering
and no cause.  Translated from `executeTrace`. -/
def executeTrace (ms : Schema) (tr : TracerRt) (code : String)
    (config : Option JSVal) : EmbodyResult :=
  match executeTraceBody ms tr code config with
  | .ok (steps, rc) =>
      { ok := true, steps := some steps, resolvedConfig := some rc, error := none,
        code := code, config := config, resultFrozen := true }
  | .error (.embodyError e) =>
      { ok := false, steps := none, resolvedConfig := none,
        error := some (.embodyError e), code := code, config := config,
        resultFrozen := false }
  | .error (.otherError m) =>
      { ok := false, steps := none, resolvedConfig := none,
        error := some (.embodyError (.internal m (some m))), code := code,
        config := config, resultFrozen := false }
  | .error (.nonError s) =>
      { ok := false, steps := none, resolvedConfig := none,
        error := some (.embodyError (.internal s none)), code := code,
        config := config, resultFrozen := false }

/-- The keyed input of the safe wrappers: any subset of tracer, code
and config.  Also the accumulated state of a partial-application
closure. -/
structure EmbodyInput where
  tracer : Option TracerRt
  code : Option String
  config : Option JSVal

/-- One invocation of a partial-application closure: the remaining
fields are merged over the stored ones (later values win), a
newly-provided config is clone-frozen, and either the trace executes
(all three fields present) or a further closure is returned.
Translated from the `closure` function inside `createClosure`. -/
def embodyStep (ms : Schema) (st : EmbodyInput) (rem : EmbodyInput) :
    Sum EmbodyResult EmbodyInput :=
  let tracer := rem.tracer <|> st.tracer
  let code := rem.code <|> st.code
  let config :=
    match rem.config with
    | none => st.config
    | some v => some (deepFreezeVal v)
  match tracer, code, config with
  | some tr, some cd, some cfg => .inl (executeTrace ms tr cd (some cfg))
  | t, cd, cfg => .inr ⟨t, cd, cfg⟩

/-- The `embody` entry point: clone-freezes a provided config, then
either executes at once (all three fields present) or returns the
partial-application closure with the provided fields stored.
Translated from `embody`. -/
def embody (ms : Schema) (input : EmbodyInput) : Sum EmbodyResult EmbodyInput :=
  let frozenConfig := input.config.map deepFreezeVal
  match input.tracer, input.code, frozenConfig with
  | some tr, some cd, some cfg => .inl (executeTrace ms tr cd (some cfg))
  | t, cd, cfg => .inr ⟨t, cd, cfg⟩

/-! ## Safe builder wrapper (translated from `src/api/embodify.ts`) -/

/-- The immutable state of an embodify chain: accumulated inputs, the
result fields written by `.trace()`, and the outcome tag. -/
structure EmbodifyState where
  tracer : Option TracerRt
  code : Option String
  config : Option JSVal
  resolvedConfig : Option ResolvedConfig
  steps : Option Steps
  ok : Bool
  error : Option EmbodyErr

/-- An embodify chain: its state plus the per-instance lazy
resolved-config cache (the closure `let` of the source), seeded from
the state by the chain constructor. -/
structure EmbodifyChain where
  state : EmbodifyState
  cachedResolvedConfig : Option ResolvedConfig

/-- The chain constructor (`embodifyChain`): the lazy cache is seeded
from the state's resolved config. -/
def embodifyChainMk (s : EmbodifyState) : EmbodifyChain := ⟨s, s.resolvedConfig⟩

/-- The `embodify` entry point: no validation, just an initial chain
with the provided fields (a provided config clone-frozen).  Translated
from `embodify`. -/
def embodify (input : EmbodyInput) : EmbodifyChain :=
  embodifyChainMk
    { tracer := input.tracer, code := input.code,
      config := input.config.map deepFreezeVal, resolvedConfig := none,
      steps := none, ok := true, error := none }

/-- Serialized-content comparison of a possibly-absent config
(`JSON.stringify(a) !== JSON.stringify(b)` in the source), modelled as
structural inequality of the optional JSON trees, with which it
coincides on the JSON fragment the wrappers exchange. -/
def configNeq (a b : Option JSVal) : Bool := decide (a ≠ b)

/-- The `.set()` setter: merges the input over the state and applies
the invalidation rules - a tracer change drops the config (unless one
is supplied alongside) and the result caches, and drops the stored code
exactly when the language sets are incompatible; a code change drops
the steps; a config change drops resolved config and steps.  Translated
from `embodifyChain.set`. -/
def embodifySet (c : EmbodifyChain) (input : EmbodyInput) : EmbodifyChain :=
  let st := c.state
  let newTracer := input.tracer <|> st.tracer
  let tracerChanged : Bool :=
    decide ((newTracer.map fun t => t.id) ≠ (st.tracer.map fun t => t.id))
  let newCode0 := input.code <|> st.code
  let newCode :=
    match newTracer with
    | some nt =>
        if tracerChanged then
          let oldLangsCount := (st.tracer.map fun o => o.langs.length).getD 0
          let langsCompatible :=
            (nt.langs.length == 0) || (oldLangsCount == 0) ||
              nt.langs.any fun l => (st.tracer.map fun o => o.langs.contains l).getD false
          if langsCompatible then newCode0 else input.code
        else newCode0
    | none => newCode0
  let codeChanged : Bool := decide (newCode ≠ st.code)
  let newConfig :=
    if input.tracer.isSome ∧ input.config = none then none
    else input.config <|> st.config
  let configChanged : Bool := input.config.isSome && configNeq input.config st.config
  embodifyChainMk
    { tracer := newTracer, code := newCode,
      config := newConfig.map deepFreezeVal,
      resolvedConfig := if tracerChanged || configChanged then none else st.resolvedConfig,
      steps :=
        if tracerChanged || codeChanged || configChanged then none else st.steps,
      ok := true, error := none }

/-- The body of `.trace()` (the `try` block): validate the tracer
shape; reuse the cached resolved config when present and neither tracer
nor config changed, otherwise resolve afresh and run the semantic
validator; then run `record` and clone-freeze its output. -/
def embodifyTraceBody (ms : Schema) (c : EmbodifyChain) (tr : TracerRt)
    (code : String) (config : Option JSVal) (tracerChanged configChanged : Bool) :
    Except Thrown (ResolvedConfig × Steps) := do
  if tr.shapeViolations = [] then pure ()
  else throw (.embodyError (.tracerInvalid tr.shapeViolations))
  let fresh : Except Thrown ResolvedConfig := do
    let rc ← (computeResolvedConfig ms tr config).mapError Thrown.embodyError
    runVerifyOptions tr rc
    pure rc
  let rc ←
    match c.cachedResolvedConfig with
    | some rc0 => if tracerChanged || configChanged then fresh else pure rc0
    | none => fresh
  let items ← tr.record code rc
  pure (rc, { items := items, frozen := true })

/-- The `.trace()` method: merges overrides, returns an `ok: false`
chain with an argument error when tracer or code is missing, and
otherwise catches every failure of the body, passing an `EmbodyError`
through and wrapping anything else as an internal failure that carries
only the message (the source constructs `InternalError` here without a
cause).  Always returns a new chain; never throws.  Translated from
`embodifyChain.trace`. -/
def embodifyTrace (ms : Schema) (c : EmbodifyChain) (input : EmbodyInput) :
    EmbodifyChain :=
  let st := c.state
  let tracer := input.tracer <|> st.tracer
  let code := input.code <|> st.code
  let tracerChanged : Bool :=
    decide ((tracer.map fun t => t.id) ≠ (st.tracer.map fun t => t.id))
  let configChanged : Bool := input.config.isSome && configNeq input.config st.config
  let config :=
    match input.config with
    | none => st.config
    | some v => some (deepFreezeVal v)
  match tracer with
  | none =>
      embodifyChainMk
        { tracer := none, code := code, config := config, resolvedConfig := none,
          steps := none, ok := false,
          error := some (.argumentInvalid "tracer" "embodify: tracer is required") }
  | some tr =>
      match code with
      | none =>
          embodifyChainMk
            { tracer := some tr, code := none, config := config,
              resolvedConfig := none, steps := none, ok := false,
              error := some (.argumentInvalid "code" "embodify: code is required") }
      | some cd =>
          match embodifyTraceBody ms c tr cd config tracerChanged configChanged with
          | .ok (rc, steps) =>
              embodifyChainMk
                { tracer := some tr, code := some cd, config := config,
                  resolvedConfig := some rc, steps := some steps, ok := true,
                  error := none }
          | .error (.embodyError e) =>
              embodifyChainMk
                { tracer := some tr, code := some cd, config := config,
                  resolvedConfig := none, steps := none, ok := false,
                  error := some e }
          | .error (.otherError m) =>
              embodifyChainMk
                { tracer := some tr, code := some cd, config := config,
                  resolvedConfig := none, steps := none, ok := false,
                  error := some (.internal m none) }
          | .error (.nonError s) =>
              embodifyChainMk
                { tracer := some tr, code := some cd, config := config,
                  resolvedConfig := none, steps := none, ok := false,
                  error := some (.internal s none) }

/-! ## Lemma toolbox for ordered field lists -/

theorem lk_append {α : Type} (k : String) (a b : List (String × α)) :
    lk k (a ++ b) = match lk k a with | some v => some v | none => lk k b := by
  induction a with
  | nil => simp [lk]
  | cons kv rest ih =>
      cases kv with
      | mk k2 v =>
          by_cases h : k2 = k <;> simp [lk, h, ih]

theorem lk_map_val {α : Type} (k : String) (h : String → α → α)
    (l : List (String × α)) :
    lk k (l.map fun kv => (kv.1, h kv.1 kv.2)) = (lk k l).map (h k) := by
  induction l with
  | nil => simp [lk]
  | cons kv rest ih =>
      cases kv with
      | mk k2 v =>
          by_cases hh : k2 = k <;> simp [lk, hh, ih]

theorem lk_filter_key {α : Type} (k : String) (p : String → Bool)
    (l : List (String × α)) :
    lk k (l.filter fun kv => p kv.1) = if p k then lk k l else none := by
  induction l with
  | nil => simp [lk]
  | cons kv rest ih =>
      cases kv with
      | mk k2 v =>
          by_cases hh : k2 = k
          · subst hh
            by_cases hp : p k2 <;> simp [lk, hp, ih]
          · by_cases hp : p k2 <;> simp [lk, hh, hp, ih]

theorem JSFields.ofList_toList : ∀ f : JSFields, JSFields.ofList f.toList = f
  | .nil => rfl
  | .cons k v rest => by
      simp [JSFields.toList, JSFields.ofList, JSFields.ofList_toList rest]

theorem lk_isSome_of_mem {α : Type} (props : List (String × α)) (kf : String × α)
    (h : kf ∈ props) : (lk kf.1 props).isSome := by
  induction props with
  | nil => cases h
  | cons hd rest ih =>
      cases hd with
      | mk k2 fs2 =>
          rcases List.mem_cons.mp h with h1 | h2
          · subst h1; simp [lk]
          · by_cases hh : k2 = kf.1 <;> simp [lk, hh, ih h2]

theorem lk_mem {α : Type} (props : List (String × α)) (k : String) (fs : α)
    (h : lk k props = some fs) : (k, fs) ∈ props := by
  induction props with
  | nil => simp [lk] at h
  | cons hd rest ih =>
      cases hd with
      | mk k2 fs2 =>
          by_cases hh : k2 = k
          · subst hh
            simp [lk] at h
            subst h
            exact List.mem_cons_self _ _
          · simp [lk, hh] at h
            exact List.mem_cons_of_mem _ (ih h)

theorem nodup_lk_eq {α : Type} (props : List (String × α))
    (hnd : (props.map Prod.fst).Nodup) (kf : String × α) (h : kf ∈ props) :
    lk kf.1 props = some kf.2 := by
  induction props with
  | nil => cases h
  | cons hd rest ih =>
      cases hd with
      | mk k2 fs2 =>
          simp only [List.map_cons, List.nodup_cons] at hnd
          rcases List.mem_cons.mp h with h1 | h2
          · subst h1; simp [lk]
          · have hk : k2 ≠ kf.1 := by
              intro he
              exact hnd.1 (he ▸ (List.mem_map.mpr ⟨kf, h2, rfl⟩))
            simp [lk, hk, ih hnd.2 h2]

/-! ## Lemmas about the in-place freeze -/

mutual
theorem allFrozen_deepFreezeInPlace : ∀ v : HValue,
    allFrozen (deepFreezeInPlace v) = true
  | .prim => rfl
  | .node f fields => by
      simp [deepFreezeInPlace, allFrozen, allFrozenFields_deepFreezeFields fields]
theorem allFrozenFields_deepFreezeFields : ∀ f : HFields,
    allFrozenFields (deepFreezeFields f) = true
  | .nil => rfl
  | .cons k v rest => by
      simp [deepFreezeFields, allFrozenFields, allFrozen_deepFreezeInPlace v,
        allFrozenFields_deepFreezeFields rest]
end

mutual
theorem eraseFrozen_deepFreezeInPlace : ∀ v : HValue,
    eraseFrozen (deepFreezeInPlace v) = eraseFrozen v
  | .prim => rfl
  | .node f fields => by
      simp [deepFreezeInPlace, eraseFrozen, eraseFrozenFields_deepFreezeFields fields]
theorem eraseFrozenFields_deepFreezeFields : ∀ f : HFields,
    eraseFrozenFields (deepFreezeFields f) = eraseFrozenFields f
  | .nil => rfl
  | .cons k v rest => by
      simp [deepFreezeFields, eraseFrozenFields, eraseFrozen_deepFreezeInPlace v,
        eraseFrozenFields_deepFreezeFields rest]
end

/-- C9: for every value whose object graph is acyclic (every `HValue`
is such a graph - cycles are not constructible in the inductive model,
and the function is total, so it terminates on all of them),
`deepFreezeInPlace` returns the value it was given up to the frozen
flags it sets - primitives and null exactly as-is, object nodes with
their shape untouched (the in-place reading of "the identical
reference") - and afterwards every object and array reachable through
own enumerable properties is frozen. -/
theorem C9_deep_freeze_in_place (v : HValue) :
    allFrozen (deepFreezeInPlace v) = true ∧
    eraseFrozen (deepFreezeInPlace v) = eraseFrozen v ∧
    deepFreezeInPlace HValue.prim = HValue.prim :=
  ⟨allFrozen_deepFreezeInPlace v, eraseFrozen_deepFreezeInPlace v, rfl⟩

/-! ## Lemmas about coercion and the fill pass -/

theorem coerceVal_tobj (v : JSVal) : coerceVal (some .tobj) v = v := by
  cases v <;> simp [coerceVal, typeMatches]

theorem coerce_idem (t : Option JType) (v : JSVal) :
    coerceVal t (coerceVal t v) = coerceVal t v := by
  match t with
  | none => rfl
  | some t =>
      cases t <;> cases v <;> try (simp [coerceVal, typeMatches]; done)
      case tnum.str s =>
        cases hns : numericStringToNat s <;>
          simp [coerceVal, typeMatches, hns]
      case tint.str s =>
        cases hns : numericStringToNat s <;>
          simp [coerceVal, typeMatches, hns]
      case tbool.str s =>
        by_cases h1 : s = "true" <;> by_cases h2 : s = "false" <;>
          simp [coerceVal, typeMatches, h1, h2]

theorem lk_genProc {α : Type} (props : List (String × α)) (proc : α → JSVal → JSVal)
    (entries : List (String × JSVal)) (k : String) :
    lk k (genProc props proc entries) =
      match lk k props with
      | some a => (lk k entries).map (proc a)
      | none => none := by
  induction entries with
  | nil => cases lk k props <;> simp [genProc, lk]
  | cons kv rest ih =>
      cases kv with
      | mk k2 v =>
          by_cases hk : k2 = k
          · subst hk
            cases hlk : lk k2 props <;>
              simp only [genProc, List.filter_cons, List.map_cons, hlk,
                Option.isSome_some, Option.isSome_none, lk, if_true] at ih ⊢ <;>
              simp [lk, hlk, ih]
          · cases hlk : lk k2 props <;>
              simp only [genProc, List.filter_cons, List.map_cons, hlk,
                Option.isSome_some, Option.isSome_none, lk] at ih ⊢ <;>
              simp [lk, hk, hlk, ih]

theorem lk_genInject_some {α : Type} (props : List (String × α))
    (dflt : α → Option JSVal) (proc : α → JSVal → JSVal)
    (entries : List (String × JSVal)) (k : String) (a : α) (d : JSVal)
    (h1 : lk k props = some a) (h2 : dflt a = some d) (h3 : lk k entries = none) :
    lk k (genInject props dflt proc entries) = some (proc a d) := by
  induction props with
  | nil => simp [lk] at h1
  | cons hd rest ih =>
      cases hd with
      | mk k2 a2 =>
          by_cases hk : k2 = k
          · subst hk
            simp [lk] at h1
            subst h1
            simp [genInject, List.filterMap_cons, h3, h2, lk]
          · simp [lk, hk] at h1
            have ihr := ih h1
            simp only [genInject, List.filterMap_cons] at ihr ⊢
            cases hcond : (lk k2 entries).isSome <;> simp [hcond]
            · cases hdf : dflt a2 <;> simp [hdf]
              · exact ihr
              · simp [lk, hk]
                exact ihr
            · exact ihr

theorem lk_genInject_entry_some {α : Type} (props : List (String × α))
    (dflt : α → Option JSVal) (proc : α → JSVal → JSVal)
    (entries : List (String × JSVal)) (k : String)
    (h3 : (lk k entries).isSome = true) :
    lk k (genInject props dflt proc entries) = none := by
  induction props with
  | nil => simp [genInject, lk]
  | cons hd rest ih =>
      cases hd with
      | mk k2 a2 =>
          by_cases hk : k2 = k
          · subst hk
            simp only [genInject, List.filterMap_cons, h3]
            exact ih
          · simp only [genInject, List.filterMap_cons] at ih ⊢
            cases hcond : (lk k2 entries).isSome <;> simp [hcond]
            · cases hdf : dflt a2 <;> simp [hdf]
              · exact ih
              · simp [lk, hk]
                exact ih
            · exact ih

theorem lk_genInject_undeclared {α : Type} (props : List (String × α))
    (dflt : α → Option JSVal) (proc : α → JSVal → JSVal)
    (entries : List (String × JSVal)) (k : String) (h1 : lk k props = none) :
    lk k (genInject props dflt proc entries) = none := by
  induction props with
  | nil => simp [genInject, lk]
  | cons hd rest ih =>
      cases hd with
      | mk k2 a2 =>
          by_cases hk : k2 = k
          · subst hk; simp [lk] at h1
          · simp [lk, hk] at h1
            have ihr := ih h1
            simp only [genInject, List.filterMap_cons] at ihr ⊢
            cases hcond : (lk k2 entries).isSome <;> simp [hcond]
            · cases hdf : dflt a2 <;> simp [hdf]
              · exact ihr
              · simp [lk, hk]
                exact ihr
            · exact ihr

theorem mem_genProc {α : Type} (props : List (String × α)) (proc : α → JSVal → JSVal)
    (entries : List (String × JSVal)) (x : String × JSVal)
    (hx : x ∈ genProc props proc entries) :
    ∃ k v a, (k, v) ∈ entries ∧ lk k props = some a ∧ x = (k, proc a v) := by
  simp only [genProc, List.mem_map, List.mem_filter] at hx
  obtain ⟨kv, ⟨hmem, hdecl⟩, hform⟩ := hx
  cases hlk : lk kv.1 props with
  | none => rw [hlk] at hdecl; simp at hdecl
  | some a =>
      refine ⟨kv.1, kv.2, a, ?_, hlk, ?_⟩
      · simpa using hmem
      · rw [hlk] at hform
        simp [hform.symm]

theorem mem_genInject {α : Type} (props : List (String × α))
    (dflt : α → Option JSVal) (proc : α → JSVal → JSVal)
    (entries : List (String × JSVal)) (x : String × JSVal)
    (hx : x ∈ genInject props dflt proc entries) :
    ∃ ka d, ka ∈ props ∧ lk ka.1 entries = none ∧ dflt ka.2 = some d ∧
      x = (ka.1, proc ka.2 d) := by
  simp only [genInject, List.mem_filterMap] at hx
  obtain ⟨ka, hmem, hform⟩ := hx
  by_cases hcond : (lk ka.1 entries).isSome
  · simp [hcond] at hform
  · cases hd : dflt ka.2 with
    | none => simp [hcond, hd] at hform
    | some d =>
        simp [hcond, hd] at hform
        exact ⟨ka, d, hmem, Option.not_isSome_iff_eq_none.mp hcond, hd,
          hform.symm⟩

theorem genFill_idem {α : Type} (props : List (String × α))
    (dflt : α → Option JSVal) (proc : α → JSVal → JSVal)
    (entries : List (String × JSVal))
    (hnd : (props.map Prod.fst).Nodup)
    (hproc : ∀ ka ∈ props, ∀ w, proc ka.2 (proc ka.2 w) = proc ka.2 w) :
    genFill props dflt proc (genFill props dflt proc entries) =
      genFill props dflt proc entries := by
  set L := genFill props dflt proc entries with hL
  have hdecl : ∀ x ∈ L, (lk x.1 props).isSome := by
    intro x hx
    rw [hL, genFill] at hx
    rcases List.mem_append.mp hx with hx1 | hx2
    · obtain ⟨k, v, a, _, hlk, hform⟩ := mem_genProc props proc entries x hx1
      rw [hform, hlk]
      rfl
    · obtain ⟨ka, d, hmem, _, _, hform⟩ :=
        mem_genInject props dflt proc entries x hx2
      rw [hform]
      exact lk_isSome_of_mem props ka hmem
  have hfix : ∀ x ∈ L,
      (match lk x.1 props with
        | some a => (x.1, proc a x.2)
        | none => x) = x := by
    intro x hx
    rw [hL, genFill] at hx
    rcases List.mem_append.mp hx with hx1 | hx2
    · obtain ⟨k, v, a, _, hlk, hform⟩ := mem_genProc props proc entries x hx1
      subst hform
      simp only [hlk]
      rw [hproc (k, a) (lk_mem props k a hlk) v]
    · obtain ⟨ka, d, hmem, _, _, hform⟩ :=
        mem_genInject props dflt proc entries x hx2
      subst hform
      simp only [nodup_lk_eq props hnd ka hmem]
      rw [hproc ka hmem d]
  have hproc2 : genProc props proc L = L := by
    rw [genProc, List.filter_eq_self.mpr (by intro a ha; exact hdecl a ha)]
    calc L.map (fun kv =>
          match lk kv.1 props with
          | some a => (kv.1, proc a kv.2)
          | none => kv) = L.map id := List.map_congr_left hfix
      _ = L := List.map_id L
  have hinj2 : genInject props dflt proc L = [] := by
    rw [genInject, List.filterMap_eq_nil_iff]
    intro ka hka
    cases hd : dflt ka.2 with
    | none => simp [hd]
    | some d =>
        have hlkprops : lk ka.1 props = some ka.2 := nodup_lk_eq props hnd ka hka
        have hsome : (lk ka.1 L).isSome := by
          rw [hL, genFill, lk_append]
          have hp := lk_genProc props proc entries ka.1
          rw [hlkprops] at hp
          cases he : lk ka.1 entries with
          | some v0 => rw [hp, he]; rfl
          | none =>
              rw [hp, he]
              simp only [Option.map_none]
              rw [lk_genInject_some props dflt proc entries ka.1 ka.2 d
                hlkprops hd he]
              rfl
        simp [hsome]
  rw [genFill, hproc2, hinj2, List.append_nil]

/-- Well-formedness every schema arriving from JavaScript has by
construction: property names are unique at both levels (JavaScript
objects cannot carry duplicate keys). -/
def SchemaWF (sch : Schema) : Prop :=
  (sch.props.map Prod.fst).Nodup ∧
    ∀ kf ∈ sch.props, (((kf.2.fprops.getD []).map Prod.fst)).Nodup

instance (sch : Schema) : Decidable (SchemaWF sch) := by
  unfold SchemaWF
  infer_instance

theorem fillField_idem (fs : FieldSchema)
    (hnd : ((fs.fprops.getD []).map Prod.fst).Nodup) (w : JSVal) :
    fillField fs (fillField fs w) = fillField fs w := by
  rcases fs with ⟨ftype, fd, fe, fp⟩
  cases ftype with
  | none => cases fp <;> rfl
  | some t =>
      cases t with
      | tobj =>
          cases fp with
          | none => exact coerce_idem (some .tobj) w
          | some ps =>
              cases w with
              | obj nf =>
                  show fillField _ (jobj (genFill ps (fun p => p.pdefault)
                    (fun p w2 => coerceVal p.ptype w2) nf.toList)) = _
                  have e2 : ∀ L : List (String × JSVal),
                      fillField ⟨some .tobj, fd, fe, some ps⟩ (jobj L) =
                        jobj (genFill ps (fun p => p.pdefault)
                          (fun p w2 => coerceVal p.ptype w2) L) := by
                    intro L
                    show jobj (genFill ps _ _ (JSFields.ofList L).toList) = _
                    rw [JSFields.toList_ofList]
                  rw [e2, genFill_idem ps (fun p => p.pdefault)
                    (fun p w2 => coerceVal p.ptype w2) nf.toList
                    (by simpa using hnd)
                    (fun kp _ w2 => coerce_idem kp.2.ptype w2)]
                  rfl
              | str s => rfl
              | num n => rfl
              | bool b => rfl
              | null => rfl
              | undef => rfl
              | fn => rfl
              | arr xs => rfl
      | tstr => cases fp <;> exact coerce_idem (some .tstr) w
      | tnum => cases fp <;> exact coerce_idem (some .tnum) w
      | tint => cases fp <;> exact coerce_idem (some .tint) w
      | tbool => cases fp <;> exact coerce_idem (some .tbool) w
      | tarr => cases fp <;> exact coerce_idem (some .tarr) w

theorem fillDefaults_obj (f : JSFields) (sch : Schema) :
    fillDefaults (.obj f) sch =
      jobj (genFill sch.props (fun fs => fs.fdefault) fillField f.toList) := by
  unfold fillDefaults
  simp

theorem fillDefaults_nullish (x : JSVal) (sch : Schema)
    (hx : x = .null ∨ x = .undef) :
    fillDefaults x sch =
      jobj (genFill sch.props (fun fs => fs.fdefault) fillField []) := by
  unfold fillDefaults
  rcases hx with hx | hx <;> subst hx <;> simp [jobj, JSFields.ofList,
    JSFields.toList]

theorem fillDefaults_passthrough (x : JSVal) (sch : Schema)
    (hx : x.isRecord = false) (hn : x ≠ .null) (hu : x ≠ .undef) :
    fillDefaults x sch = x := by
  unfold fillDefaults
  cases x <;> simp_all [JSVal.isRecord]

theorem fillDefaults_not_nullish (x : JSVal) (sch : Schema) :
    fillDefaults x sch ≠ .null ∧ fillDefaults x sch ≠ .undef := by
  by_cases hx : x = .null ∨ x = .undef
  · rw [fillDefaults_nullish x sch hx]
    simp [jobj]
  · push_neg at hx
    cases hxr : x.isRecord
    · rw [fillDefaults_passthrough x sch hxr hx.1 hx.2]
      exact hx
    · cases x <;> simp [JSVal.isRecord] at hxr
      rename_i f
      rw [fillDefaults_obj f sch]
      simp [jobj]

theorem fillDefaults_idem (x : JSVal) (sch : Schema) (hwf : SchemaWF sch) :
    fillDefaults (fillDefaults x sch) sch = fillDefaults x sch := by
  have hproc : ∀ kf ∈ sch.props, ∀ w,
      fillField kf.2 (fillField kf.2 w) = fillField kf.2 w := by
    intro kf hkf w
    exact fillField_idem kf.2 (hwf.2 kf hkf) w
  have hfix : ∀ entries : List (String × JSVal),
      fillDefaults (jobj (genFill sch.props (fun fs => fs.fdefault) fillField
        entries)) sch =
        jobj (genFill sch.props (fun fs => fs.fdefault) fillField entries) := by
    intro entries
    show fillDefaults (JSVal.obj (JSFields.ofList (genFill sch.props
      (fun fs => fs.fdefault) fillField entries))) sch = _
    rw [fillDefaults_obj, JSFields.toList_ofList]
    rw [genFill_idem sch.props (fun fs => fs.fdefault) fillField entries
      hwf.1 hproc]
  by_cases hx : x = .null ∨ x = .undef
  · rw [fillDefaults_nullish x sch hx]
    exact hfix []
  · push_neg at hx
    cases hxr : x.isRecord
    · rw [fillDefaults_passthrough x sch hxr hx.1 hx.2,
        fillDefaults_passthrough x sch hxr hx.1 hx.2]
    · cases x <;> simp [JSVal.isRecord] at hxr
      rename_i f
      rw [fillDefaults_obj f sch]
      exact hfix f.toList

theorem expandShorthand_obj (f : JSFields) (sch : Schema) :
    expandShorthand (.obj f) sch = jobj (f.toList.map (expandEntry sch)) := by
  unfold expandShorthand
  simp [toEntries]

theorem expand_fixed (sch : Schema) (f : JSFields)
    (hv : ∀ kv ∈ f.toList, entryViolations sch kv = []) :
    expandShorthand (.obj f) sch = .obj f := by
  rw [expandShorthand_obj]
  have hmap : f.toList.map (expandEntry sch) = f.toList := by
    have hid : ∀ kv ∈ f.toList, expandEntry sch kv = id kv := by
      intro kv hkv
      rcases kv with ⟨k, v⟩
      cases v with
      | bool b =>
          have hev := hv (k, .bool b) hkv
          suffices hse : shouldExpand (lk k sch.props) = false by
            simp [expandEntry, hse]
          cases hlk : lk k sch.props with
          | none => simp [shouldExpand]
          | some fs =>
              unfold entryViolations at hev
              rw [hlk] at hev
              rcases List.append_eq_nil.mp hev with ⟨h1, _⟩
              cases hft : fs.ftype with
              | none => simp [shouldExpand, hft]
              | some t =>
                  rw [hft] at h1
                  have htm : typeMatches t (.bool b) = true := by
                    by_contra hc
                    simp [hc] at h1
                  have ht : t = .tbool := by
                    simpa [typeMatches] using htm
                  subst ht
                  simp [shouldExpand, hft]
      | str s => simp [expandEntry]
      | num n => simp [expandEntry]
      | null => simp [expandEntry]
      | undef => simp [expandEntry]
      | fn => simp [expandEntry]
      | arr xs => simp [expandEntry]
      | obj nf => simp [expandEntry]
    rw [List.map_congr_left hid, List.map_id]
  rw [hmap]
  simp [jobj, JSFields.ofList_toList]

/-- C5: the three-stage configuration pipeline is idempotent - whenever
one pass of `prepareConfig` succeeds on some data and (well-formed,
duplicate-free, as every JavaScript schema object is) schema, running
the pipeline again on its own output under the same schema returns that
output unchanged. -/
theorem C5_pipeline_idempotent (d out : JSVal) (sch : Schema)
    (hwf : SchemaWF sch) (h : prepareConfig d sch = .ok out) :
    prepareConfig out sch = .ok out := by
  unfold prepareConfig at h ⊢
  set m := fillDefaults (expandShorthand d sch) sch with hm
  have hnn := fillDefaults_not_nullish (expandShorthand d sch) sch
  rw [← hm] at hnn
  have hcond : ¬(m = .null ∨ m = .undef) := not_or.mpr ⟨hnn.1, hnn.2⟩
  unfold validateConfig validateReplaced at h
  rw [if_neg hcond] at h
  cases hcv : configViolations m sch with
  | cons v vs => rw [hcv] at h; simp at h
  | nil =>
      rw [hcv] at h
      simp only [Except.ok.injEq] at h
      subst h
      obtain ⟨f, hf⟩ : ∃ f, m = .obj f := by
        cases hmc : m <;> rw [hmc] at hcv <;>
          first
          | exact ⟨_, rfl⟩
          | simp [configViolations] at hcv
      have hev : ∀ kv ∈ f.toList, entryViolations sch kv = [] := by
        rw [hf] at hcv
        intro kv hkv
        unfold configViolations at hcv
        rcases List.append_eq_nil.mp hcv with ⟨h1, _⟩
        exact List.flatMap_eq_nil_iff.mp h1 kv hkv
      have hexp : expandShorthand m sch = m := by
        rw [hf]
        exact expand_fixed sch f hev
      have hfill : fillDefaults m sch = m := by
        rw [hm]
        exact fillDefaults_idem (expandShorthand d sch) sch hwf
      rw [hexp, hfill]
      unfold validateConfig validateReplaced
      rw [if_neg hcond, hcv]

/-! ## Helper lemmas and fixtures for the pipeline claims -/

theorem getField_jobj (l : List (String × JSVal)) (k : String) :
    getField (jobj l) k = (lk k l).getD .undef := by
  simp [getField, jobj]

theorem fillDefaults_jobj (l : List (String × JSVal)) (sch : Schema) :
    fillDefaults (jobj l) sch =
      jobj (genFill sch.props (fun fs => fs.fdefault) fillField l) := by
  show fillDefaults (.obj (JSFields.ofList l)) sch = _
  rw [fillDefaults_obj, JSFields.toList_ofList]

theorem expandShorthand_jobj (l : List (String × JSVal)) (sch : Schema) :
    expandShorthand (jobj l) sch = jobj (l.map (expandEntry sch)) := by
  show expandShorthand (.obj (JSFields.ofList l)) sch = _
  rw [expandShorthand_obj, JSFields.toList_ofList]

theorem expandEntry_fst (sch : Schema) (kv : String × JSVal) :
    (expandEntry sch kv).1 = kv.1 := by
  rcases kv with ⟨k, v⟩
  cases v <;> simp [expandEntry]
  split <;> rfl

theorem lk_expand_map (sch : Schema) (fields : List (String × JSVal)) (k : String) :
    lk k (fields.map (expandEntry sch)) =
      (lk k fields).map fun v => (expandEntry sch (k, v)).2 := by
  induction fields with
  | nil => simp [lk]
  | cons kv rest ih =>
      rcases kv with ⟨k2, v⟩
      have h1 : (expandEntry sch (k2, v)).1 = k2 := expandEntry_fst sch (k2, v)
      have he : expandEntry sch (k2, v) = (k2, (expandEntry sch (k2, v)).2) :=
        Prod.ext h1 rfl
      by_cases hk : k2 = k
      · subst hk
        rw [List.map_cons, he]
        simp [lk]
      · rw [List.map_cons, he]
        simp [lk, hk, ih]

/-- The field schema of the spec's `direction` example: a string with
default `lr` and a two-value enum. -/
def dirFS : FieldSchema :=
  { ftype := some .tstr, fdefault := some (.str "lr"),
    fenum := some [.str "lr", .str "rl"], fprops := none }

/-- The spec's `direction` example schema. -/
def dirSchema : Schema :=
  { props := [("direction", dirFS)], required := [], addProps := true }

/-- The field schema of the spec's `allowedClasses` example: an object
whose declared properties `lowercase` and `uppercase` are both
boolean. -/
def acFS : FieldSchema :=
  { ftype := some .tobj, fdefault := none, fenum := none,
    fprops := some [("lowercase", { ptype := some .tbool, pdefault := none }),
                    ("uppercase", { ptype := some .tbool, pdefault := none })] }

/-- The spec's `allowedClasses` example schema. -/
def acSchema : Schema :=
  { props := [("allowedClasses", acFS)], required := [], addProps := true }

/-- C8: shorthand expansion replaces a caller-supplied single boolean
with the full object (every declared property set to that boolean)
exactly at fields whose schema describes an all-boolean object, leaves
every other field unchanged, and on the spec's example turns
`allowedClasses: false` into the two-property all-false object. -/
theorem C8_expand_shorthand :
    (∀ (sch : Schema) (fields : List (String × JSVal)) (k : String)
        (fs : FieldSchema) (ps : List (String × PropSchema)) (b : Bool),
        lk k sch.props = some fs → fs.ftype = some .tobj →
        fs.fprops = some ps → (∀ p ∈ ps, p.2.ptype = some .tbool) →
        lk k fields = some (.bool b) →
        getField (expandShorthand (jobj fields) sch) k =
          jobj (ps.map fun p => (p.1, JSVal.bool b))) ∧
    (∀ (sch : Schema) (fields : List (String × JSVal)) (k : String) (v : JSVal),
        lk k fields = some v →
        (∀ b : Bool, v = .bool b → shouldExpand (lk k sch.props) = false) →
        getField (expandShorthand (jobj fields) sch) k = v) ∧
    expandShorthand (jobj [("allowedClasses", .bool false)]) acSchema =
      jobj [("allowedClasses",
        jobj [("lowercase", .bool false), ("uppercase", .bool false)])] := by
  refine ⟨?_, ?_, by decide⟩
  · intro sch fields k fs ps b hlk hft hfp hall hlkf
    rw [expandShorthand_jobj, getField_jobj, lk_expand_map, hlkf]
    have hse : shouldExpand (some fs) = true := by
      simp only [shouldExpand, hft, hfp]
      simp [List.all_eq_true]
      exact fun a b2 hab => hall (a, b2) hab
    simp [expandEntry, hlk, hse, expandBoolean, hfp]
  · intro sch fields k v hlkf hnb
    rw [expandShorthand_jobj, getField_jobj, lk_expand_map, hlkf]
    cases v with
    | bool b => simp [expandEntry, hnb b rfl]
    | str s => simp [expandEntry]
    | num n => simp [expandEntry]
    | null => simp [expandEntry]
    | undef => simp [expandEntry]
    | fn => simp [expandEntry]
    | arr xs => simp [expandEntry]
    | obj nf => simp [expandEntry]

theorem C8_expand_shorthand_witness :
    getField (expandShorthand
        (jobj [("allowedClasses", .bool true), ("direction", .str "lr")])
        acSchema) "allowedClasses" =
      jobj [("lowercase", .bool true), ("uppercase", .bool true)] :=
  C8_expand_shorthand.1 acSchema
    [("allowedClasses", .bool true), ("direction", .str "lr")]
    "allowedClasses" acFS
    [("lowercase", { ptype := some .tbool, pdefault := none }),
     ("uppercase", { ptype := some .tbool, pdefault := none })]
    true (by decide) (by decide) (by decide) (by decide) (by decide)

theorem coerceVal_of_typeMatches (t : JType) (v : JSVal)
    (h : typeMatches t v = true) : coerceVal (some t) v = v := by
  simp [coerceVal, h]

/-- C7: default injection (the engine run behind `fillDefaults`,
modelled from the spec) injects every declared default absent from the
data - verbatim when the default is scalar and well-typed, in general
after the engine's own processing of the injected value; coerces a
numeric-looking string to a number where the schema wants one; silently
drops every field the schema does not declare; and realizes the spec's
example `fillDefaults(empty, schema direction default lr)`. -/
theorem C7_fill_defaults :
    (∀ (sch : Schema) (fields : List (String × JSVal)) (k : String)
        (fs : FieldSchema) (d : JSVal),
        lk k sch.props = some fs → fs.fdefault = some d →
        lk k fields = none →
        getField (fillDefaults (jobj fields) sch) k = fillField fs d) ∧
    (∀ (sch : Schema) (fields : List (String × JSVal)) (k : String)
        (fs : FieldSchema) (d : JSVal),
        lk k sch.props = some fs → fs.fdefault = some d →
        lk k fields = none → fs.fprops = none →
        (∀ t, fs.ftype = some t → typeMatches t d = true) →
        getField (fillDefaults (jobj fields) sch) k = d) ∧
    (∀ (sch : Schema) (fields : List (String × JSVal)) (k : String)
        (fs : FieldSchema) (s : String) (n : Nat),
        lk k sch.props = some fs →
        (fs.ftype = some .tnum ∨ fs.ftype = some .tint) →
        lk k fields = some (.str s) → numericStringToNat s = some n →
        getField (fillDefaults (jobj fields) sch) k = .num n) ∧
    (∀ (sch : Schema) (fields : List (String × JSVal)) (k : String),
        lk k sch.props = none →
        getField (fillDefaults (jobj fields) sch) k = .undef) ∧
    fillDefaults (jobj []) dirSchema = jobj [("direction", .str "lr")] := by
  refine ⟨?_, ?_, ?_, ?_, by decide⟩
  · intro sch fields k fs d hlk hd habs
    rw [fillDefaults_jobj, getField_jobj, genFill, lk_append]
    rw [lk_genProc sch.props fillField fields k, hlk, habs]
    simp only [Option.map_none]
    rw [lk_genInject_some sch.props (fun fs2 => fs2.fdefault) fillField fields k
      fs d hlk hd habs]
    rfl
  · intro sch fields k fs d hlk hd habs hfp hty
    have h1 : getField (fillDefaults (jobj fields) sch) k = fillField fs d := by
      rw [fillDefaults_jobj, getField_jobj, genFill, lk_append]
      rw [lk_genProc sch.props fillField fields k, hlk, habs]
      simp only [Option.map_none]
      rw [lk_genInject_some sch.props (fun fs2 => fs2.fdefault) fillField fields
        k fs d hlk hd habs]
      rfl
    rw [h1]
    rcases fs with ⟨ftype, fd, fe, fp⟩
    simp only at hfp
    subst hfp
    cases ftype with
    | none => rfl
    | some t =>
        have htm : typeMatches t d = true := hty t rfl
        have : fillField ⟨some t, fd, fe, none⟩ d = coerceVal (some t) d := by
          cases t <;> rfl
        rw [this, coerceVal_of_typeMatches t d htm]
  · intro sch fields k fs s n hlk hft hlkf hns
    rw [fillDefaults_jobj, getField_jobj, genFill, lk_append]
    rw [lk_genProc sch.props fillField fields k, hlk, hlkf]
    have hffs : fillField fs (.str s) = .num n := by
      rcases fs with ⟨ftype, fd, fe, fp⟩
      simp only at hft
      rcases hft with hft | hft <;> subst hft <;>
        cases fp <;>
          simp [fillField, coerceVal, typeMatches, hns, Option.elim]
    simp [hffs]
  · intro sch fields k hlk
    rw [fillDefaults_jobj, getField_jobj, genFill, lk_append]
    rw [lk_genProc sch.props fillField fields k, hlk]
    rw [lk_genInject_undeclared sch.props (fun fs2 => fs2.fdefault) fillField
      fields k hlk]
    rfl

theorem C7_fill_defaults_witness :
    getField (fillDefaults (jobj [("count", .str "5")]) dirSchema) "direction" =
        .str "lr" ∧
      getField (fillDefaults (jobj [("count", .str "5")]) dirSchema) "count" =
        .undef :=
  ⟨C7_fill_defaults.2.1 dirSchema [("count", .str "5")] "direction" dirFS
      (.str "lr") (by decide) (by decide) (by decide) (by decide)
      (fun t ht => by
        simp [dirFS] at ht
        subst ht
        decide),
    C7_fill_defaults.2.2.2.1 dirSchema [("count", .str "5")] "count"
      (by decide)⟩

theorem C5_pipeline_idempotent_witness :
    prepareConfig (jobj [("direction", .str "lr")]) dirSchema =
      .ok (jobj [("direction", .str "lr")]) :=
  C5_pipeline_idempotent (jobj []) (jobj [("direction", .str "lr")]) dirSchema
    (by decide) (by decide)

/-- C6: the capability validator fails immediately with a single
violation on every non-record input; on a record it runs every
structural check unconditionally and either returns without effect
(exactly when all five checks pass) or raises one error carrying the
full ordered violation list - identity, domains, execute, optional
schema, optional semantic validator - where each check's violation is
present exactly when the field really violates its contract. -/
theorem C6_validate_tracer_module :
    (∀ t : JSVal, t.isRecord = false →
        validateTracerModule t =
          .error (.tracerInvalid ["tracerModule must be a plain object"])) ∧
    (∀ f : JSFields,
        validateTracerModule (.obj f) = .ok () ∨
          validateTracerModule (.obj f) =
            .error (.tracerInvalid (tracerViolations f.toList))) ∧
    (∀ f : JSFields,
        validateTracerModule (.obj f) = .ok () ↔
          (idViolations f.toList = [] ∧ langsViolations f.toList = [] ∧
            recordViolations f.toList = [] ∧ schemaViolations f.toList = [] ∧
            verifyViolations f.toList = [])) ∧
    (∀ fs : List (String × JSVal),
        idViolations fs = [] ↔
          ∃ s, tmField fs "id" = .str s ∧ isBlankString s = false) ∧
    (∀ fs : List (String × JSVal),
        langsViolations fs = [] ↔
          ∃ xs, tmField fs "langs" = .arr xs ∧
            ∀ v ∈ xs.toList, v.isStr = true) ∧
    (∀ fs : List (String × JSVal),
        recordViolations fs = [] ↔ tmField fs "record" = .fn) ∧
    (∀ fs : List (String × JSVal),
        schemaViolations fs = [] ↔
          (tmField fs "optionsSchema" = .undef ∨
            ∃ g, tmField fs "optionsSchema" = .obj g)) ∧
    (∀ fs : List (String × JSVal),
        verifyViolations fs = [] ↔
          (tmField fs "verifyOptions" = .undef ∨
            tmField fs "verifyOptions" = .fn)) := by
  refine ⟨?_, ?_, ?_, ?_, ?_, ?_, ?_, ?_⟩
  · intro t ht
    cases t <;> simp [JSVal.isRecord] at ht <;> rfl
  · intro f
    have hdef : validateTracerModule (.obj f) =
        if tracerViolations f.toList = [] then Except.ok ()
        else .error (.tracerInvalid (tracerViolations f.toList)) := rfl
    rw [hdef]
    by_cases hv : tracerViolations f.toList = []
    · left
      rw [if_pos hv]
    · right
      rw [if_neg hv]
  · intro f
    have hdef : validateTracerModule (.obj f) =
        if tracerViolations f.toList = [] then Except.ok ()
        else .error (.tracerInvalid (tracerViolations f.toList)) := rfl
    rw [hdef]
    by_cases hv : tracerViolations f.toList = []
    · rw [if_pos hv]
      have hv2 := hv
      simp only [tracerViolations, List.append_eq_nil] at hv2
      obtain ⟨⟨⟨⟨h1, h2⟩, h3⟩, h4⟩, h5⟩ := hv2
      simp [h1, h2, h3, h4, h5]
    · rw [if_neg hv]
      constructor
      · intro hcontra
        simp at hcontra
      · intro hall
        obtain ⟨h1, h2, h3, h4, h5⟩ := hall
        exact absurd (by simp [tracerViolations, h1, h2, h3, h4, h5]) hv
  · intro fs
    cases hf : tmField fs "id" <;> simp [idViolations, hf]
  · intro fs
    cases hf : tmField fs "langs" <;> simp [langsViolations, hf]
  · intro fs
    cases hf : tmField fs "record" <;> simp [recordViolations, hf]
  · intro fs
    cases hf : tmField fs "optionsSchema" <;> simp [schemaViolations, hf]
  · intro fs
    cases hf : tmField fs "verifyOptions" <;> simp [verifyViolations, hf]

theorem C6_validate_tracer_module_witness :
    validateTracerModule (.obj (JSFields.ofList
      [("id", .str "demo"), ("langs", jarr [.str "txt"]), ("record", .fn),
       ("bogus", .num 3)])) = .ok () ∧
    validateTracerModule (.num 7) =
      .error (.tracerInvalid ["tracerModule must be a plain object"]) :=
  ⟨(C6_validate_tracer_module.2.2.1 _).mpr (by decide),
    C6_validate_tracer_module.1 (.num 7) (by decide)⟩

/-! ## Concrete fixtures for the wrapper claims -/

/-- An empty meta schema for concrete scenarios (the wrappers are
parameterized over the imported meta schema). -/
def mschema0 : Schema := ⟨[], [], true⟩

/-- A benign universal tracer (like the repository's `reverse` test
fixture): no option schema, no semantic validator, `record` resolves
with one step echoing the code. -/
def tracer0 : TracerRt :=
  { id := "reverse", langs := [], optionsSchema := none, verifyOptions := none,
    record := fun code _ => .ok [JSVal.str code], shapeViolations := [] }

/-- C10: the builder-throws setter `tracify.code` rejects the empty
string (and every non-string) with an argument-type error, while the
direct wrapper's `traceWith` rejects only non-strings and accepts the
empty string - the two throwing protocols disagree on the same
empty-string input. -/
theorem C10_empty_code_disagreement :
    (∀ c : TracifyChain,
        thrownOf (tracifyCodeSet c (.str "")) =
          some (.embodyError (.argumentInvalid "code"
            "tracify.code(): expected a non-empty string"))) ∧
    (∀ (c : TracifyChain) (v : JSVal), v.isStr = false →
        thrownOf (tracifyCodeSet c v) =
          some (.embodyError (.argumentInvalid "code"
            ("tracify.code(): expected a string, got " ++ v.typeName)))) ∧
    (∀ (ms : Schema) (tr : TracerRt) (v : JSVal) (cfg : Option JSVal),
        v.isStr = false →
        traceWith ms tr v cfg =
          .error (.embodyError (.argumentInvalid "code"
            ("trace: expected code to be a string, got " ++ v.typeName)))) ∧
    traceWith mschema0 tracer0 (.str "") none = .ok ⟨[.str ""], true⟩ := by
  refine ⟨?_, ?_, ?_, by decide⟩
  · intro c
    rfl
  · intro c v hv
    cases v <;> simp [JSVal.isStr] at hv <;> rfl
  · intro ms tr v cfg hv
    cases v <;> simp [JSVal.isStr] at hv <;> rfl

theorem C10_empty_code_disagreement_witness :
    thrownOf (tracifyCodeSet tracifyEmptyChain (.num 456)) =
        some (.embodyError (.argumentInvalid "code"
          "tracify.code(): expected a string, got number")) ∧
      thrownOf (tracifyCodeSet tracifyEmptyChain (.str "")) =
        some (.embodyError (.argumentInvalid "code"
          "tracify.code(): expected a non-empty string")) :=
  ⟨C10_empty_code_disagreement.2.1 tracifyEmptyChain (.num 456) (by decide),
    C10_empty_code_disagreement.1 tracifyEmptyChain⟩

/-- A tracer whose `record` rejects with a plain (non-embody) error -
the repository's "tracer contract violation" scenario. -/
def tracerBoom : TracerRt :=
  { id := "boom", langs := [], optionsSchema := none, verifyOptions := none,
    record := fun _ _ => .error (.otherError "boom"), shapeViolations := [] }

/-- A module value that fails the shape validator (blank id). -/
def tracerBad : TracerRt :=
  { id := "", langs := [], optionsSchema := none, verifyOptions := none,
    record := fun code _ => .ok [JSVal.str code], shapeViolations :=
      ["id must be a non-empty string"] }

/-- C2: the deep-immutability boundary rule fails on the safe wrapper's
failure path: `executeTrace`'s catch branch returns a plain object
literal, so every `ok: false` outcome crosses the `embody` boundary
unfrozen, while the success branch is deep-frozen in place. -/
theorem C2_failure_result_unfrozen :
    (∀ (ms : Schema) (tr : TracerRt) (code : String) (config : Option JSVal),
        (executeTrace ms tr code config).ok = false →
          (executeTrace ms tr code config).resultFrozen = false) ∧
    embody mschema0 ⟨some tracerBad, some "x", some (jobj [])⟩ =
      .inl (executeTrace mschema0 tracerBad "x" (some (jobj []))) ∧
    executeTrace mschema0 tracerBad "x" (some (jobj [])) =
      { ok := false, steps := none, resolvedConfig := none,
        error := some (.embodyError
          (.tracerInvalid ["id must be a non-empty string"])),
        code := "x", config := some (jobj []), resultFrozen := false } ∧
    (executeTrace mschema0 tracer0 "x" none).ok = true ∧
    (executeTrace mschema0 tracer0 "x" none).resultFrozen = true := by
  refine ⟨?_, rfl, by decide, by decide, by decide⟩
  intro ms tr code config h
  cases hb : executeTraceBody ms tr code config with
  | ok v =>
      cases v with
      | mk s rc => simp [executeTrace, hb] at h
  | error t => cases t <;> simp [executeTrace, hb]

theorem C2_failure_result_unfrozen_witness :
    (executeTrace mschema0 tracerBad "x" none).resultFrozen = false :=
  C2_failure_result_unfrozen.1 mschema0 tracerBad "x" none (by decide)

/-- C1 counterexample: the spec says both safe wrappers wrap an
unrecognized thrown value as an internal failure carrying the original
as cause; `embody` does (`new InternalError(message, \x7b cause \x7d)`),
but the embodify chain's `trace` constructs its `InternalError` without
the cause option, so the same rejected `record` yields
`internal "boom"` with no cause there. -/
theorem C1_embodify_cause_dropped :
    (executeTrace mschema0 tracerBoom "x" none).error =
        some (.embodyError (.internal "boom" (some "boom"))) ∧
      (embodifyTrace mschema0 (embodify ⟨some tracerBoom, some "x", none⟩)
          ⟨none, none, none⟩).state.error = some (.internal "boom" none) ∧
      some (EmbodyErr.internal "boom" none) ≠
        some (EmbodyErr.internal "boom" (some "boom")) := by
  refine ⟨by decide, by decide, by decide⟩

/-- C1 (amended): both safe wrappers are total and always return one of
the two tagged shapes - `ok: true` with no error, or `ok: false` whose
error is a classified embody error - but the cause-propagation rules
differ: `embody` (via `executeTrace`) wraps an unrecognized `Error` as
an internal failure carrying the original as cause, while the embodify
chain's `trace` wraps it as an internal failure without a cause. -/
theorem C1_safe_wrappers_tagged_outcomes :
    (∀ (ms : Schema) (tr : TracerRt) (code : String) (config : Option JSVal),
        ((executeTrace ms tr code config).ok = true ∧
          (executeTrace ms tr code config).error = none ∧
          (executeTrace ms tr code config).steps.isSome = true ∧
          (executeTrace ms tr code config).resolvedConfig.isSome = true) ∨
        ((executeTrace ms tr code config).ok = false ∧
          ∃ e : EmbodyErr,
            (executeTrace ms tr code config).error = some (.embodyError e))) ∧
    (∀ (ms : Schema) (tr : TracerRt) (code : String) (config : Option JSVal)
        (m : String),
        executeTraceBody ms tr code config = .error (.otherError m) →
          (executeTrace ms tr code config).error =
            some (.embodyError (.internal m (some m)))) ∧
    (∀ (ms : Schema) (c : EmbodifyChain) (input : EmbodyInput),
        ((embodifyTrace ms c input).state.ok = true ∧
          (embodifyTrace ms c input).state.error = none) ∨
        ((embodifyTrace ms c input).state.ok = false ∧
          ∃ e : EmbodyErr,
            (embodifyTrace ms c input).state.error = some e)) ∧
    (∀ (ms : Schema) (c : EmbodifyChain) (tr : TracerRt) (cd : String)
        (m : String),
        c.state.tracer = some tr → c.state.code = some cd →
        embodifyTraceBody ms c tr cd c.state.config false false =
          .error (.otherError m) →
          (embodifyTrace ms c ⟨none, none, none⟩).state.error =
            some (.internal m none)) := by
  refine ⟨?_, ?_, ?_, ?_⟩
  · intro ms tr code config
    cases hb : executeTraceBody ms tr code config with
    | ok v =>
        cases v with
        | mk s rc => exact Or.inl (by simp [executeTrace, hb])
    | error t =>
        cases t <;> exact Or.inr (by simp [executeTrace, hb])
  · intro ms tr code config m h
    simp [executeTrace, h]
  · intro ms c input
    simp only [embodifyTrace, embodifyChainMk]
    split
    · exact Or.inr ⟨rfl, _, rfl⟩
    · split
      · exact Or.inr ⟨rfl, _, rfl⟩
      · split
        · exact Or.inl ⟨rfl, rfl⟩
        · exact Or.inr ⟨rfl, _, rfl⟩
        · exact Or.inr ⟨rfl, _, rfl⟩
        · exact Or.inr ⟨rfl, _, rfl⟩
  · intro ms c tr cd m h1 h2 hb
    simp only [embodifyTrace, Option.none_orElse, h1, h2]
    simp only [ne_eq, decide_not, Option.map_some, Option.some.injEq,
      eq_self_iff_true, decide_True, Bool.not_true, Option.isSome_none,
      Bool.false_and]
    rw [hb]
    rfl

theorem C1_safe_wrappers_tagged_outcomes_witness :
    (executeTrace mschema0 tracerBoom "z" none).error =
        some (.embodyError (.internal "boom" (some "boom"))) ∧
      (embodifyTrace mschema0 (embodify ⟨some tracerBoom, some "z", none⟩)
          ⟨none, none, none⟩).state.error = some (.internal "boom" none) :=
  ⟨C1_safe_wrappers_tagged_outcomes.2.1 mschema0 tracerBoom "z" none "boom"
      (by decide),
    C1_safe_wrappers_tagged_outcomes.2.2.2 mschema0
      (embodify ⟨some tracerBoom, some "z", none⟩) tracerBoom "z" "boom"
      rfl rfl (by decide)⟩

/-! ## Setter invalidation (C3 scenario chains) -/

/-- A chain with a tracer installed (`tracify().tracer(reverse)`). -/
def c3chain0 : TracifyChain :=
  match tracifyTracerSet tracifyEmptyChain tracer0 with
  | .ok c => c
  | .error _ => tracifyEmptyChain

/-- The same chain after one `.resolvedConfig` access, so its
per-instance resolved-config cache is populated. -/
def c3chain1 : TracifyChain := (tracifyResolvedConfigGet mschema0 c3chain0).chain

/-- The chain returned by `.code("x")` on the cache-populated chain. -/
def c3chain2 : TracifyChain :=
  match tracifyCodeSet c3chain1 (.str "x") with
  | .ok c => c
  | .error _ => tracifyEmptyChain

/-- C3 counterexample: the spec says setting a new text clears only the
result cache, but `tracifyChain.code` builds a brand-new chain whose
per-instance caches are both fresh, so a populated resolved-config
cache is lost across `.code(...)` as well. -/
theorem C3_code_set_drops_resolved_cache :
    c3chain1.cachedResolvedConfig = some ⟨jobj [], jobj [], true⟩ ∧
      c3chain2.state.code = some "x" ∧
      c3chain2.cachedResolvedConfig = none := by
  refine ⟨by decide, by decide, by decide⟩

/-- C3 (amended): the tracer setters follow the spec's invalidation
rules (config always cleared; code kept exactly when the modules share
identity, either language set is empty, or the sets intersect), and
`embodify.set` clears exactly the caches the spec names (steps on a
code change; resolved config and steps on a config change) - but every
`tracify` setter returns a brand-new chain whose per-instance caches
are both empty, so `tracify.code(...)` also drops a populated
resolved-config cache. -/
theorem C3_setter_invalidation :
    (∀ (c : TracifyChain) (t : TracerRt) (c' : TracifyChain),
        tracifyTracerSet c t = .ok c' →
          c'.state.tracer = some t ∧
          c'.state.config = none ∧
          c'.cachedResolvedConfig = none ∧ c'.cachedSteps = none ∧
          c'.state.code =
            (if (match c.state.tracer with
                  | some o => t.id == o.id
                  | none => false) ||
                ((t.langs.length == 0) ||
                  (((c.state.tracer.map fun o => o.langs.length).getD 0) == 0) ||
                  t.langs.any fun l =>
                    (c.state.tracer.map fun o => o.langs.contains l).getD false)
             then c.state.code else none)) ∧
    (∀ (c : TracifyChain) (s : String) (c' : TracifyChain),
        tracifyCodeSet c (.str s) = .ok c' →
          c'.state.tracer = c.state.tracer ∧
          c'.state.config = c.state.config ∧
          c'.state.code = some s ∧
          c'.cachedResolvedConfig = none ∧ c'.cachedSteps = none) ∧
    (∀ (c : TracifyChain) (v : JSVal) (c' : TracifyChain),
        tracifyConfigSet c v = .ok c' →
          c'.state.tracer = c.state.tracer ∧
          c'.state.code = c.state.code ∧
          c'.state.config = some (deepFreezeVal (nullish v (jobj []))) ∧
          c'.cachedResolvedConfig = none ∧ c'.cachedSteps = none) ∧
    (∀ (c : EmbodifyChain) (t : TracerRt),
        (embodifySet c ⟨some t, none, none⟩).state.config = none ∧
        (embodifySet c ⟨some t, none, none⟩).state.code =
          (if decide ((some t.id : Option String) ≠
                (c.state.tracer.map fun o => o.id)) = true
           then
             (if ((t.langs.length == 0) ||
                  (((c.state.tracer.map fun o => o.langs.length).getD 0) == 0) ||
                  t.langs.any fun l =>
                    (c.state.tracer.map fun o => o.langs.contains l).getD false) =
                 true
              then c.state.code else none)
           else c.state.code)) ∧
    (∀ (c : EmbodifyChain) (cd : String),
        (embodifySet c ⟨none, some cd, none⟩).state.code = some cd ∧
        (embodifySet c ⟨none, some cd, none⟩).state.resolvedConfig =
          c.state.resolvedConfig ∧
        (embodifySet c ⟨none, some cd, none⟩).cachedResolvedConfig =
          c.state.resolvedConfig ∧
        (embodifySet c ⟨none, some cd, none⟩).state.config =
          c.state.config.map deepFreezeVal ∧
        (embodifySet c ⟨none, some cd, none⟩).state.steps =
          (if decide (some cd ≠ c.state.code) then none else c.state.steps)) ∧
    (∀ (c : EmbodifyChain) (v : JSVal),
        (embodifySet c ⟨none, none, some v⟩).state.config =
          some (deepFreezeVal v) ∧
        (embodifySet c ⟨none, none, some v⟩).state.code = c.state.code ∧
        (embodifySet c ⟨none, none, some v⟩).state.resolvedConfig =
          (if configNeq (some v) c.state.config then none
           else c.state.resolvedConfig) ∧
        (embodifySet c ⟨none, none, some v⟩).state.steps =
          (if configNeq (some v) c.state.config then none
           else c.state.steps)) := by
  refine ⟨?_, ?_, ?_, ?_, ?_, ?_⟩
  · intro c t c' h
    by_cases hs : t.shapeViolations = []
    · simp only [tracifyTracerSet, hs, if_true, Except.ok.injEq] at h
      subst h
      exact ⟨rfl, rfl, rfl, rfl, rfl⟩
    · simp [tracifyTracerSet, hs] at h
  · intro c s c' h
    by_cases hs : s = ""
    · simp [tracifyCodeSet, hs] at h
    · simp only [tracifyCodeSet, hs, if_false, Except.ok.injEq] at h
      subst h
      exact ⟨rfl, rfl, rfl, rfl, rfl⟩
  · intro c v c' h
    by_cases hv : v.typeofObject = true
    · simp only [tracifyConfigSet, hv, if_true, Except.ok.injEq] at h
      subst h
      exact ⟨rfl, rfl, rfl, rfl, rfl⟩
    · simp [tracifyConfigSet, hv] at h
  · intro c t
    refine ⟨?_, ?_⟩
    · simp [embodifySet, embodifyChainMk]
    · simp only [embodifySet, embodifyChainMk, Option.none_orElse,
        Option.some_orElse, Option.map_some]
      rfl
  · intro c cd
    cases htr : c.state.tracer with
    | none => simp [embodifySet, embodifyChainMk, htr]
    | some tr => simp [embodifySet, embodifyChainMk, htr]
  · intro c v
    cases htr : c.state.tracer with
    | none => simp [embodifySet, embodifyChainMk, configNeq, htr]
    | some tr => simp [embodifySet, embodifyChainMk, configNeq, htr]

theorem C3_setter_invalidation_witness :
    (⟨⟨none, some "y", none⟩, none, none⟩ : TracifyChain).cachedResolvedConfig =
        none ∧
      (⟨⟨none, some "y", none⟩, none, none⟩ : TracifyChain).cachedSteps = none :=
  ⟨(C3_setter_invalidation.2.1 tracifyEmptyChain "y"
      ⟨⟨none, some "y", none⟩, none, none⟩ rfl).2.2.2.1,
    (C3_setter_invalidation.2.1 tracifyEmptyChain "y"
      ⟨⟨none, some "y", none⟩, none, none⟩ rfl).2.2.2.2⟩

/-- Every successfully resolved configuration is frozen on creation. -/
theorem computeResolvedConfig_frozen (ms : Schema) (tr : TracerRt)
    (cfg : Option JSVal) (rc : ResolvedConfig)
    (h : computeResolvedConfig ms tr cfg = .ok rc) : rc.frozen = true := by
  simp only [computeResolvedConfig, bind, Except.bind, pure, Except.pure] at h
  repeat' split at h
  all_goals
    first
      | exact Except.noConfusion h
      | (injection h with h; rw [← h])

/-- C4: on a chain whose per-instance caches are empty (every chain a
setter returns), a successful `.resolvedConfig` access caches its frozen
result, so a second access returns the identical value on the identical
chain with zero further resolutions; a successful `.steps` access caches
the frozen-steps promise, so a second access returns the identical
promise with zero further resolutions or `record` calls; and one access
runs the resolution and `record` at most once. -/
theorem C4_tracify_getter_memoization (ms : Schema) (c : TracifyChain)
    (hrc : c.cachedResolvedConfig = none) (hsteps : c.cachedSteps = none) :
    (∀ rc : ResolvedConfig,
        (tracifyResolvedConfigGet ms c).out = .ok rc →
          tracifyResolvedConfigGet ms (tracifyResolvedConfigGet ms c).chain =
            ⟨(tracifyResolvedConfigGet ms c).chain, .ok rc, 0⟩ ∧
          rc.frozen = true) ∧
    (tracifyResolvedConfigGet ms c).resolutions ≤ 1 ∧
    (∀ p : Except Thrown Steps,
        (tracifyStepsGet ms c).out = .ok p →
          tracifyStepsGet ms (tracifyStepsGet ms c).chain =
            ⟨(tracifyStepsGet ms c).chain, .ok p, 0, 0⟩ ∧
          ∀ s : Steps, p = .ok s → s.frozen = true) ∧
    (tracifyStepsGet ms c).recordCalls ≤ 1 := by
  refine ⟨?_, ?_, ?_, ?_⟩
  · intro rc h
    cases htr : c.state.tracer with
    | none =>
        have heq : tracifyResolvedConfigGet ms c =
            ⟨c, .error (.embodyError (.argumentInvalid "tracer"
              "tracify: tracer is required to access the resolved config")), 0⟩ := by
          simp [tracifyResolvedConfigGet, hrc, htr]
        rw [heq] at h
        exact Except.noConfusion h
    | some tr =>
        cases hcr : computeResolvedConfig ms tr c.state.config with
        | error e =>
            have heq : tracifyResolvedConfigGet ms c =
                ⟨c, .error (.embodyError e), 1⟩ := by
              simp [tracifyResolvedConfigGet, hrc, htr, hcr]
            rw [heq] at h
            exact Except.noConfusion h
        | ok rc0 =>
            cases hv : runVerifyOptions tr rc0 with
            | error t =>
                have heq : tracifyResolvedConfigGet ms c =
                    ⟨{ c with cachedResolvedConfig := some rc0 }, .error t, 1⟩ := by
                  simp [tracifyResolvedConfigGet, hrc, htr, hcr, hv]
                rw [heq] at h
                exact Except.noConfusion h
            | ok u =>
                have heq : tracifyResolvedConfigGet ms c =
                    ⟨{ c with cachedResolvedConfig := some rc0 }, .ok rc0, 1⟩ := by
                  simp [tracifyResolvedConfigGet, hrc, htr, hcr, hv]
                rw [heq] at h ⊢
                have h2 : Except.ok rc0 = Except.ok rc := h
                injection h2 with h2
                subst h2
                refine ⟨by simp [tracifyResolvedConfigGet], ?_⟩
                exact computeResolvedConfig_frozen ms tr c.state.config rc0 hcr
  · cases htr : c.state.tracer with
    | none => simp [tracifyResolvedConfigGet, hrc, htr]
    | some tr =>
        cases hcr : computeResolvedConfig ms tr c.state.config with
        | error e => simp [tracifyResolvedConfigGet, hrc, htr, hcr]
        | ok rc0 =>
            cases hv : runVerifyOptions tr rc0 with
            | error t => simp [tracifyResolvedConfigGet, hrc, htr, hcr, hv]
            | ok u => simp [tracifyResolvedConfigGet, hrc, htr, hcr, hv]
  · intro p h
    cases htr : c.state.tracer with
    | none =>
        have heq : tracifyStepsGet ms c =
            ⟨c, .error (.embodyError (.argumentInvalid "tracer"
              "tracify: a tracer is required to generate trace steps")), 0, 0⟩ := by
          simp [tracifyStepsGet, hsteps, htr]
        rw [heq] at h
        exact Except.noConfusion h
    | some tr =>
        cases hcd : c.state.code with
        | none =>
            have heq : tracifyStepsGet ms c =
                ⟨c, .error (.embodyError (.argumentInvalid "code"
                  "tracify: code is required to generate trace steps")), 0, 0⟩ := by
              simp [tracifyStepsGet, hsteps, htr, hcd]
            rw [heq] at h
            exact Except.noConfusion h
        | some cd =>
            cases hcr : computeResolvedConfig ms tr c.state.config with
            | error e =>
                have heq : tracifyStepsGet ms c =
                    ⟨c, .error (.embodyError e), 1, 0⟩ := by
                  simp [tracifyStepsGet, hsteps, hrc, htr, hcd, hcr]
                rw [heq] at h
                exact Except.noConfusion h
            | ok rc0 =>
                cases hv : runVerifyOptions tr rc0 with
                | error t =>
                    have heq : tracifyStepsGet ms c =
                        ⟨{ c with cachedResolvedConfig := some rc0 },
                          .error t, 1, 0⟩ := by
                      simp [tracifyStepsGet, hsteps, hrc, htr, hcd, hcr, hv]
                    rw [heq] at h
                    exact Except.noConfusion h
                | ok u =>
                    have heq : tracifyStepsGet ms c =
                        ⟨⟨c.state, some rc0, some ((tr.record cd rc0).map
                            fun items => Steps.mk items true)⟩,
                          .ok ((tr.record cd rc0).map
                            fun items => Steps.mk items true), 1, 1⟩ := by
                      simp [tracifyStepsGet, hsteps, hrc, htr, hcd, hcr, hv]
                    rw [heq] at h ⊢
                    have h2 : Except.ok ((tr.record cd rc0).map
                        fun items => Steps.mk items true) = Except.ok p := h
                    injection h2 with h2
                    subst h2
                    refine ⟨by simp [tracifyStepsGet], ?_⟩
                    intro s hs
                    cases hrec : tr.record cd rc0 with
                    | error t2 =>
                        rw [hrec] at hs
                        exact Except.noConfusion hs
                    | ok items =>
                        rw [hrec] at hs
                        have hs2 : Except.ok (Steps.mk items true) = Except.ok s := hs
                        injection hs2 with hs2
                        rw [← hs2]
  · cases htr : c.state.tracer with
    | none => simp [tracifyStepsGet, hsteps, htr]
    | some tr =>
        cases hcd : c.state.code with
        | none => simp [tracifyStepsGet, hsteps, htr, hcd]
        | some cd =>
            cases hcr : computeResolvedConfig ms tr c.state.config with
            | error e => simp [tracifyStepsGet, hsteps, hrc, htr, hcd, hcr]
            | ok rc0 =>
                cases hv : runVerifyOptions tr rc0 with
                | error t => simp [tracifyStepsGet, hsteps, hrc, htr, hcd, hcr, hv]
                | ok u => simp [tracifyStepsGet, hsteps, hrc, htr, hcd, hcr, hv]

theorem C4_tracify_getter_memoization_witness :
    tracifyResolvedConfigGet mschema0
        (tracifyResolvedConfigGet mschema0
          ⟨⟨some tracer0, some "x", none⟩, none, none⟩).chain =
      ⟨(tracifyResolvedConfigGet mschema0
          ⟨⟨some tracer0, some "x", none⟩, none, none⟩).chain,
        .ok ⟨jobj [], jobj [], true⟩, 0⟩ ∧
      (⟨jobj [], jobj [], true⟩ : ResolvedConfig).frozen = true :=
  (C4_tracify_getter_memoization mschema0
      ⟨⟨some tracer0, some "x", none⟩, none, none⟩ rfl rfl).1
    ⟨jobj [], jobj [], true⟩ (by decide)
